import Mathlib

set_option maxRecDepth 8000
set_option maxHeartbeats 1000000

namespace NamDamasco

/-!
Shallow embedding of the conversational-commerce core of the `nam_damasco_v7`
repository: string/regex helpers and the multi-stage product search from
`services/product_service.py`, warehouse-name canonicalization from
`utils/product_utils.py`, the in-memory conversation state from
`utils/conversation_details.py` and `utils/conversation_location.py`, and the
tool-dispatch / orchestration loop from
`services/providers/openai_chat_provider.py` and `services/ai_service.py`.

Python strings are modelled as Lean `String` / `List Char`; Python `dict`s as
insertion-ordered association lists; `None`-able values as `Option`; Python
exceptions of external collaborator calls as `Except` results.
-/

/-! ### Basic character and string helpers -/

/-- ASCII letters and digits, the character class `[A-Za-z0-9]` used by the
regexes in `product_utils.py`. -/
def isAsciiAlnum (c : Char) : Bool :=
  (65 ≤ c.toNat && c.toNat ≤ 90) || (97 ≤ c.toNat && c.toNat ≤ 122)
    || (48 ≤ c.toNat && c.toNat ≤ 57)

/-- Word characters for Python's `\b` word boundaries (`\w`), restricted to
the ASCII range actually exercised by the embedded queries. -/
def isWordChar (c : Char) : Bool := isAsciiAlnum c || c = '_'

/-- Models `str.lower()` for ASCII plus the accented Spanish letters that occur
in the repository's keyword tables. -/
def pyLowerChar (c : Char) : Char :=
  if c = 'Á' then 'á' else if c = 'É' then 'é' else if c = 'Í' then 'í'
  else if c = 'Ó' then 'ó' else if c = 'Ú' then 'ú' else if c = 'Ñ' then 'ñ'
  else if c = 'Ü' then 'ü' else c.toLower

/-- `str.lower()` on whole strings. -/
def pyLower (s : String) : String := String.mk (s.data.map pyLowerChar)

/-- Models Python `str.strip()` (strip whitespace from both ends);
`List.rdropWhile` drops the longest suffix of matching characters. -/
def pyStrip (s : String) : String :=
  String.mk (List.rdropWhile Char.isWhitespace (s.data.dropWhile Char.isWhitespace))

/-- `needle` is a prefix of `hay` (character lists). -/
def startsWithList (needle hay : List Char) : Bool :=
  match needle, hay with
  | [], _ => true
  | _ :: _, [] => false
  | n :: ns, h :: hs => n == h && startsWithList ns hs

/-- Models Python's `needle in hay` substring test on strings
(true for the empty needle, as in Python). -/
def containsList (hay needle : List Char) : Bool :=
  match hay with
  | [] => needle.isEmpty
  | _ :: t => startsWithList needle hay || containsList t needle

/-- Substring test on `String`s. -/
def pyContains (hay needle : String) : Bool := containsList hay.data needle.data

/-- Case-insensitive substring test: models SQL `column ILIKE '%pat%'`. -/
def containsCI (hay needle : String) : Bool :=
  pyContains (pyLower hay) (pyLower needle)

/-! ### Warehouse-name canonicalization (`utils/product_utils.py`) -/

/-- Decomposition table for `unicodedata.normalize('NFKD', ·)` followed by
dropping combining marks: accented Latin letter ↦ its base letter. -/
def accentPairs : List (Char × Char) :=
  [('á', 'a'), ('à', 'a'), ('ä', 'a'), ('â', 'a'), ('ã', 'a'),
   ('é', 'e'), ('è', 'e'), ('ë', 'e'), ('ê', 'e'),
   ('í', 'i'), ('ì', 'i'), ('ï', 'i'), ('î', 'i'),
   ('ó', 'o'), ('ò', 'o'), ('ö', 'o'), ('ô', 'o'), ('õ', 'o'),
   ('ú', 'u'), ('ù', 'u'), ('ü', 'u'), ('û', 'u'),
   ('ñ', 'n'), ('ç', 'c'),
   ('Á', 'A'), ('À', 'A'), ('Ä', 'A'), ('Â', 'A'), ('Ã', 'A'),
   ('É', 'E'), ('È', 'E'), ('Ë', 'E'), ('Ê', 'E'),
   ('Í', 'I'), ('Ì', 'I'), ('Ï', 'I'), ('Î', 'I'),
   ('Ó', 'O'), ('Ò', 'O'), ('Ö', 'O'), ('Ô', 'O'), ('Õ', 'O'),
   ('Ú', 'U'), ('Ù', 'U'), ('Ü', 'U'), ('Û', 'U'),
   ('Ñ', 'N'), ('Ç', 'C')]

/-- Models NFKD-unaccenting character by character for the Latin letters that
appear in warehouse names; other characters are left unchanged
(non-alphanumerics are replaced by `_` in the next step anyway). -/
def unaccentChar (c : Char) : Char :=
  ((accentPairs.find? fun p => p.1 == c).map (·.2)).getD c

/-- Models `re.sub(r'[^A-Za-z0-9]+', '_', ·)`: every maximal run of
non-alphanumeric characters is replaced by a single underscore.  The boolean
flag records whether we are inside such a run. -/
def sanitizeAux : Bool → List Char → List Char
  | _, [] => []
  | inRun, c :: cs =>
    if isAsciiAlnum c then c :: sanitizeAux false cs
    else if inRun then sanitizeAux true cs
    else '_' :: sanitizeAux true cs

/-- `python_equivalent_of_canonicalize_whs` from `utils/product_utils.py`:
strip, unaccent, replace non-alphanumeric runs by `_`, uppercase, strip
underscores, placeholder for an empty result, truncate to 255 characters. -/
def python_equivalent_of_canonicalize_whs (original_warehouse_name : String) : String :=
  let text := pyStrip original_warehouse_name
  if text = "" then ""
  else
    let unaccented := text.data.map unaccentChar
    let sanitized := sanitizeAux false unaccented
    let uppered := sanitized.map Char.toUpper
    let result := List.rdropWhile (· == '_') (uppered.dropWhile (· == '_'))
    if result = [] then "CANONICAL_EMPTY_WHS"
    else String.mk (result.take 255)

/-! ### Regex and keyword helpers (`services/product_service.py`) -/

/-- The optional qualifier words of `SPEC_REGEX`:
`(ram|almacenamiento|storage|memoria|interno)?`. -/
def specQualifiers : List String :=
  ["ram", "almacenamiento", "storage", "memoria", "interno"]

/-- True when the (lowercase) `needle` is a prefix of `hay`, compared
case-insensitively (models a case-insensitive literal in a regex). -/
def startsLowered (needle : String) (hay : List Char) : Bool :=
  startsWithList needle.data (hay.map pyLowerChar)

/-- A `\b` word boundary holds here, given that the previous character was a
word character: the next character must be missing or a non-word character. -/
def boundaryHead : List Char → Bool
  | [] => true
  | c :: _ => !isWordChar c

/-- One of the qualifier words matches here, followed by a word boundary. -/
def qualPath (rest : List Char) : Bool :=
  specQualifiers.any fun q => startsLowered q rest && boundaryHead (rest.drop q.length)

/-- After an optional `de`: `\s*(ram|...)?\b` — with backtracking this succeeds
unless the text continues with a word character that starts no qualifier. -/
def specTail2OK (rest : List Char) : Bool :=
  boundaryHead rest || qualPath rest

/-- The tail `\s*(?:de\s*)?(ram|...)?\b` of `SPEC_REGEX` matches at this point
(all groups being optional, with backtracking this fails only when a word
character follows directly and starts neither `de` nor a qualifier word). -/
def specTailOK (rest : List Char) : Bool :=
  boundaryHead rest || qualPath rest ||
    (startsLowered "de" rest && specTail2OK (rest.drop 2))

/-- Tries to match `(\d+)\s*(gb|tb)` plus the optional tail at the start of
`cs` (which the caller has checked to begin with a digit at a word boundary);
returns the captured groups `(value, unit)` on success. -/
def specTryMatchAt (cs : List Char) : Option (String × String) :=
  let digits := cs.takeWhile Char.isDigit
  let rest := (cs.dropWhile Char.isDigit).dropWhile Char.isWhitespace
  match rest with
  | u1 :: u2 :: rest3 =>
    if (pyLowerChar u1 == 'g' || pyLowerChar u1 == 't') && pyLowerChar u2 == 'b'
        && specTailOK rest3 then
      some (String.mk digits, String.mk [u1, u2])
    else none
  | _ => none

/-- Scans left to right for the first position where `SPEC_REGEX` matches;
`prev` is the character before the current position (for the leading `\b`). -/
def specSearchAux (prev : Option Char) : List Char → Option (String × String)
  | [] => none
  | c :: cs =>
    if (match prev with | none => true | some p => !isWordChar p) && c.isDigit then
      match specTryMatchAt (c :: cs) with
      | some r => some r
      | none => specSearchAux (some c) cs
    else specSearchAux (some c) cs

/-- Models `SPEC_REGEX.search(query)` for the pattern
`\b(\d+)\s*(gb|tb)\s*(?:de\s*)?(ram|almacenamiento|storage|memoria|interno)?\b`
(case-insensitive), returning the captured `(value, unit)` groups. -/
def specRegexSearch (query : String) : Option (String × String) :=
  specSearchAux none query.data

/-- `CATEGORY_KEYWORDS` from `product_service.py` (insertion order kept). -/
def CATEGORY_KEYWORDS : List (String × List String) :=
  [("CELULAR", ["celular", "celulares", "teléfono", "telefonos", "smartphone"]),
   ("TABLET", ["tablet", "tablets"]),
   ("LAPTOP", ["laptop", "laptops", "portátil", "portatiles"]),
   ("TELEVISOR", ["televisor", "televisores", "tv", "pantalla"])]

/-- `_detect_sub_category`: first category whose keyword occurs in the
lowercased query. -/
def detectSubCategory (query : String) : Option String :=
  let ql := pyLower query
  (CATEGORY_KEYWORDS.find? fun p => p.2.any fun kw => pyContains ql kw).map (·.1)

/-- `_KNOWN_COLORS` from `product_service.py`. -/
def KNOWN_COLORS : List String :=
  ["negro", "blanco", "azul", "rojo", "verde", "gris", "plata", "dorado",
   "rosado", "violeta", "morado", "amarillo", "naranja", "marrón", "beige",
   "celeste", "turquesa", "lila", "crema", "grafito", "titanio", "cobre",
   "negra", "blanca", "claro", "oscuro", "marino"]

/-- The character class `[A-Z0-9]` of `_SKU_PAT`. -/
def isUpperDigit (c : Char) : Bool :=
  (65 ≤ c.toNat && c.toNat ≤ 90) || (48 ≤ c.toNat && c.toNat ≤ 57)

/-- Length of a match of `_SKU_PAT` = `\b(SM-[A-Z0-9]+[A-Z]*|[A-Z0-9]{8,})\b`
starting exactly here (the caller has checked the left word boundary):
either `SM-` followed by a non-empty `[A-Z0-9]` run, or a run of at least 8
`[A-Z0-9]` characters, each followed by a right word boundary. -/
def skuMatchLen (cs : List Char) : Option Nat :=
  let alt1 :=
    match cs with
    | 'S' :: 'M' :: '-' :: rest =>
      let run := rest.takeWhile isUpperDigit
      if run ≠ [] && boundaryHead (rest.drop run.length) then some (3 + run.length)
      else none
    | _ => none
  match alt1 with
  | some n => some n
  | none =>
    let run := cs.takeWhile isUpperDigit
    if run.length ≥ 8 && boundaryHead (cs.drop run.length) then some run.length
    else none

/-- Models `_SKU_PAT.sub('', s)`: removes every (non-overlapping, leftmost)
match; `fuel` bounds the recursion (each step consumes at least one char). -/
def skuSubAux : Nat → Option Char → List Char → List Char
  | 0, _, cs => cs
  | _, _, [] => []
  | fuel + 1, prev, c :: cs =>
    let boundary := match prev with | none => true | some p => !isWordChar p
    if boundary then
      match skuMatchLen (c :: cs) with
      | some n => skuSubAux fuel (((c :: cs).take n).getLast?) ((c :: cs).drop n)
      | none => c :: skuSubAux fuel (some c) cs
    else c :: skuSubAux fuel (some c) cs

/-- `_SKU_PAT.sub('', s)` on strings. -/
def skuPatSub (s : String) : String :=
  String.mk (skuSubAux (s.data.length + 1) none s.data)

/-- Models Python `str.split()` (split on whitespace runs, no empty parts);
the accumulator holds the current word reversed. -/
def splitWsAux : List Char → List Char → List String
  | [], acc => if acc.isEmpty then [] else [String.mk acc.reverse]
  | c :: cs, acc =>
    if c.isWhitespace then
      if acc.isEmpty then splitWsAux cs []
      else String.mk acc.reverse :: splitWsAux cs []
    else splitWsAux cs (c :: acc)

/-- Python `str.split()`. -/
def pySplit (s : String) : List String := splitWsAux s.data []

/-- Python `str.capitalize()`: first character uppercased, rest lowercased. -/
def pyCapitalize (s : String) : String :=
  match s.data with
  | [] => ""
  | c :: cs => String.mk (c.toUpper :: cs.map pyLowerChar)

/-- Python `str.upper()` (ASCII). -/
def pyUpper (s : String) : String := String.mk (s.data.map Char.toUpper)

/-- `_extract_base_name_and_color`: strip `_SKU_PAT` matches from the item
name, then peel the trailing run of known color words; returns
`(base-or-fallback, capitalized color or none)`. -/
def extract_base_name_and_color (item_name : String) : String × Option String :=
  if item_name = "" then ("", none)
  else
    let name_without_sku := pyStrip (skuPatSub item_name)
    let words := pySplit name_without_sku
    let rws := words.reverse
    let isColor := fun (w : String) => KNOWN_COLORS.contains (pyLower w)
    let color_parts := (rws.takeWhile isColor).reverse
    let base_parts := (rws.dropWhile isColor).reverse
    let base := pyStrip (String.intercalate " " base_parts)
    let color := pyStrip (String.intercalate " " color_parts)
    ((if base = "" then name_without_sku else base),
     if color = "" then none else some (pyCapitalize color))

/-- Modelled from the spec: `utils/text_utils.strip_html_to_text` is imported
by `product_service.py`, but `utils/text_utils.py` is not in the source
snapshot.  The spec calls it a "stripped-HTML fallback" for a description, so
it is modelled as removal of `<...>` tag spans (the flag is "inside a tag"). -/
def stripHtmlAux : Bool → List Char → List Char
  | _, [] => []
  | true, c :: cs => stripHtmlAux (c != '>') cs
  | false, c :: cs => if c = '<' then stripHtmlAux true cs else c :: stripHtmlAux false cs

/-- HTML tag stripping (see `stripHtmlAux`). -/
def strip_html_to_text (s : String) : String := String.mk (stripHtmlAux false s.data)

/-! ### Product rows and result grouping (`services/product_service.py`) -/

/-- One `products` table row (`models/product.py`), restricted to the columns
the search pipeline reads.  `NUMERIC` prices are modelled as rationals and the
pgvector embedding as an optional rational vector. -/
structure Product where
  item_code : String
  item_name : String
  description : Option String
  llm_summarized_description : Option String
  specifitacion : Option String
  category : Option String
  sub_category : Option String
  brand : Option String
  item_group_name : Option String
  warehouse_name : String
  branch_name : Option String
  store_address : Option String
  price : Option Rat
  price_bolivar : Option Rat
  stock : Int
  embedding : Option (List Rat)
deriving DecidableEq, Repr

/-- `float(x) if x else None`: a missing or zero (falsy) decimal becomes
`None`. -/
def priceIfTruthy : Option Rat → Option Rat
  | some q => if q = 0 then none else some q
  | none => none

/-- One variant entry built by `_group_product_results`. -/
structure Variant where
  color : String
  price : Option Rat
  price_bolivar : Option Rat
  full_item_name : String
  item_code : String
deriving DecidableEq, Repr

/-- One raw (pre-merge) location entry of `_group_product_results`. -/
structure RawLoc where
  warehouse_name : String
  branch_name : Option String
  branch_address : Option String
  stock : Int
deriving DecidableEq, Repr

/-- One merged location entry (`branch_name` with summed stock). -/
structure MergedLoc where
  branch_name : String
  total_stock : Int
deriving DecidableEq, Repr

/-- The per-base-name group dictionary while rows are being folded in. -/
structure GroupAcc where
  base_name : String
  brand : Option String
  category : Option String
  sub_category : Option String
  marketing_description : String
  technical_specs : String
  variants : List Variant
  locations : List RawLoc
deriving DecidableEq, Repr

/-- A finished group: like `GroupAcc`, but with locations merged by branch. -/
structure GroupEntry where
  base_name : String
  brand : Option String
  category : Option String
  sub_category : Option String
  marketing_description : String
  technical_specs : String
  variants : List Variant
  locations : List MergedLoc
deriving DecidableEq, Repr

/-- The group key of a row: `base` from `_extract_base_name_and_color`, with
`item_name` as fallback when it is empty (line `if not base: base = ...`). -/
def rowBase (p : Product) : String :=
  let b := (extract_base_name_and_color p.item_name).1
  if b = "" then p.item_name else b

/-- The variant dictionary built for a row by `_group_product_results`. -/
def rowVariant (p : Product) : Variant :=
  { color := ((extract_base_name_and_color p.item_name).2).getD "N/A"
    price := priceIfTruthy p.price
    price_bolivar := priceIfTruthy p.price_bolivar
    full_item_name := p.item_name
    item_code := p.item_code }

/-- The location dictionary appended for a row by `_group_product_results`. -/
def rowLoc (p : Product) : RawLoc :=
  { warehouse_name := p.warehouse_name
    branch_name := p.branch_name
    branch_address := p.store_address
    stock := p.stock }

/-- `prod_row.llm_summarized_description or strip_html_to_text(description or "")`. -/
def rowDesc (p : Product) : String :=
  match p.llm_summarized_description with
  | some d => if d = "" then strip_html_to_text (p.description.getD "") else d
  | none => strip_html_to_text (p.description.getD "")

/-- The fresh group dictionary created when a base name is first seen. -/
def newGroupAcc (p : Product) : GroupAcc :=
  { base_name := rowBase p
    brand := p.brand
    category := p.category
    sub_category := p.sub_category
    marketing_description := pyStrip (rowDesc p)
    technical_specs := pyStrip ((p.specifitacion).getD "")
    variants := []
    locations := [] }

/-- Appends a row's variant (if new) and location to its group. -/
def addRow (g : GroupAcc) (p : Product) : GroupAcc :=
  let v := rowVariant p
  { g with
    variants := if g.variants.contains v then g.variants else g.variants ++ [v]
    locations := g.locations ++ [rowLoc p] }

/-- One iteration of the `for prod_row in product_rows` loop: create or update
the group keyed by the row's base name (dicts are insertion-ordered). -/
def insertRow (acc : List (String × GroupAcc)) (p : Product) : List (String × GroupAcc) :=
  if (acc.find? fun e => e.1 == rowBase p).isSome then
    acc.map fun e => if e.1 == rowBase p then (e.1, addRow e.2 p) else e
  else acc ++ [(rowBase p, addRow (newGroupAcc p) p)]

/-- First phase of `_group_product_results`: the `grouped` dictionary. -/
def groupPhase1 (rows : List Product) : List (String × GroupAcc) :=
  rows.foldl insertRow []

/-- One iteration of the location-merging loop: skip falsy branch names,
create a zero entry for a new branch, then add the location's stock. -/
def mergeStep (acc : List MergedLoc) (loc : RawLoc) : List MergedLoc :=
  match loc.branch_name with
  | none => acc
  | some b =>
    if b = "" then acc
    else if (acc.find? fun m => m.branch_name == b).isSome then
      acc.map fun m =>
        if m.branch_name == b then { m with total_stock := m.total_stock + loc.stock } else m
    else acc ++ [{ branch_name := b, total_stock := loc.stock }]

/-- The `merged_locations` dictionary of `_group_product_results`. -/
def mergeLocs (locs : List RawLoc) : List MergedLoc :=
  locs.foldl mergeStep []

/-- Second phase: replace a group's raw locations by the merged list. -/
def finalizeGroup (g : GroupAcc) : GroupEntry :=
  { base_name := g.base_name
    brand := g.brand
    category := g.category
    sub_category := g.sub_category
    marketing_description := g.marketing_description
    technical_specs := g.technical_specs
    variants := g.variants
    locations := mergeLocs g.locations }

/-- `_group_product_results`: the `products_grouped` list (`list(grouped.values())`). -/
def group_product_results (rows : List Product) : List GroupEntry :=
  (groupPhase1 rows).map fun e => finalizeGroup e.2

/-! ### The search pipeline (`find_products` and friends) -/

/-- The environment `find_products` runs against: the catalog table plus the
external embedding generator and the vector store's cosine distance. -/
structure SearchEnv where
  db : List Product
  getEmbedding : String → Option (List Rat)
  cosineDistance : List Rat → List Rat → Rat

/-- `get_live_product_details_by_sku`: case-insensitive equality of the
stripped query against `item_code` (all warehouses). -/
def get_live_product_details_by_sku (env : SearchEnv) (item_code_query : String) :
    List Product :=
  let code := pyStrip item_code_query
  if code = "" then []
  else env.db.filter fun p => pyLower p.item_code == pyLower code

/-- The `product_details` dictionary built by `_format_sku_result`. -/
structure SkuDetails where
  item_name : String
  brand : Option String
  category : Option String
  specifitacion : Option String
  variants : List Variant
  locations : List String
deriving DecidableEq, Repr

/-- The variant dictionary `_format_sku_result` builds from a `to_dict` row
(`p.get("price")` keeps a zero price, unlike `_group_product_results`). -/
def toDictVariant (p : Product) : Variant :=
  { color := ((extract_base_name_and_color p.item_name).2).getD "N/A"
    price := p.price
    price_bolivar := p.price_bolivar
    full_item_name := p.item_name
    item_code := p.item_code }

/-- Inserting into a Python dict: an existing key keeps its position but gets
the new value; a new key is appended. -/
def assocUpsert {β : Type} (l : List (String × β)) (k : String) (v : β) :
    List (String × β) :=
  if (l.find? fun e => e.1 == k).isSome then
    l.map fun e => if e.1 == k then (k, v) else e
  else l ++ [(k, v)]

/-- `list({k(p): v(p) for p in rows}.values())`: last value per key wins,
keys keep first-insertion order. -/
def lastWinsValues {β : Type} (pairs : List (String × β)) : List β :=
  (pairs.foldl (fun acc kv => assocUpsert acc kv.1 kv.2) []).map (·.2)

/-- `_format_sku_result` (the caller only applies it to a non-empty row list;
an empty list would raise `IndexError` in Python, modelled as `none`). -/
def format_sku_result (rows : List Product) : Option SkuDetails :=
  match rows with
  | [] => none
  | first :: _ =>
    some
      { item_name := (extract_base_name_and_color first.item_name).1
        brand := first.brand
        category := first.category
        specifitacion := first.specifitacion
        variants := lastWinsValues (rows.map fun p => (p.item_code, toDictVariant p))
        locations :=
          lastWinsValues (rows.filterMap fun p =>
            match p.branch_name with
            | some b => if b = "" then none else some (b, b)
            | none => none) }

/-- The result dictionary of `find_products` (each constructor is one of the
return shapes; `grouped` carries the `search_method` tag set by the caller). -/
inductive SearchResult
  | error (message : String)
  | skuMatch (details : SkuDetails)
  | grouped (search_method : String) (products_grouped : List GroupEntry)
  | notFoundInCity (message : String)
  | notFound (message : String)
deriving DecidableEq, Repr

/-- Python truthiness of the optional warehouse-scope list (`None` and the
empty list are both falsy). -/
def optTruthy : Option (List String) → Bool
  | some (_ :: _) => true
  | _ => false

/-- The warehouse-scope filter: added to a stage's query only when the scope
is truthy (`if warehouse_names: q = q.filter(...in_(...))`). -/
def scopeOK (wn : Option (List String)) (p : Product) : Bool :=
  !optTruthy wn || (wn.getD []).contains p.warehouse_name

/-- SQL `column ILIKE '%pat%'` on a nullable column (`NULL` never matches). -/
def optILike (o : Option String) (pat : String) : Bool :=
  match o with
  | none => false
  | some s => containsCI s pat

/-- Stage 1 of `find_products` (SKU match): `some` is an early return, `none`
falls through to the next stage. -/
def skuStage (env : SearchEnv) (query : String) (wn : Option (List String)) :
    Option SearchResult :=
  let sku_results := get_live_product_details_by_sku env query
  if sku_results.isEmpty then none
  else
    let available :=
      sku_results.filter fun p => !optTruthy wn || (wn.getD []).contains p.warehouse_name
    if available.isEmpty then
      if optTruthy wn then
        some (.notFoundInCity
          "Producto encontrado pero sin stock para retiro en la ciudad especificada.")
      else none
    else (format_sku_result available).map SearchResult.skuMatch

/-- The row set of stage 2 (specification filter): runs only when both the
quantity+unit regex and a category keyword fire; `stock > 0`, tenant group,
detected sub-category, spec-or-name `ILIKE`, optional scope, `LIMIT 300`. -/
def specStageRows (env : SearchEnv) (query : String) (wn : Option (List String)) :
    List Product :=
  match specRegexSearch query, detectSubCategory query with
  | some vu, some cat =>
    let search_term := vu.1 ++ vu.2
    (env.db.filter fun p =>
      decide (0 < p.stock) && p.item_group_name == some "DAMASCO TECNO"
        && p.sub_category == some cat
        && (optILike p.specifitacion search_term || containsCI p.item_name search_term)
        && scopeOK wn p).take 300
  | _, _ => []

/-- Stage 2 of `find_products` (specification filter). -/
def specStage (env : SearchEnv) (query : String) (wn : Option (List String)) :
    Option SearchResult :=
  match specRegexSearch query, detectSubCategory query with
  | some _, some _ =>
    let rows := specStageRows env query wn
    if rows.isEmpty then none
    else some (.grouped "spec_filter" (group_product_results rows))
  | _, _ => none

/-- Insertion into a list sorted by `≤` on strings. -/
def insertSortedString (s : String) : List String → List String
  | [] => [s]
  | x :: xs => if s ≤ x then s :: x :: xs else x :: insertSortedString s xs

/-- Sorts a list of strings (models SQL `ORDER BY brand`). -/
def sortStrings (l : List String) : List String := l.foldr insertSortedString []

/-- `get_available_brands_by_category`: distinct, ordered, in-stock brands of
a sub-category within the tenant group (`NULL` brands dropped). -/
def get_available_brands_by_category (env : SearchEnv) (category : String) :
    List String :=
  if category = "" then []
  else
    sortStrings
      (((env.db.filter fun p =>
          p.sub_category == some (pyUpper category)
            && p.item_group_name == some "DAMASCO TECNO"
            && decide (0 < p.stock)).filterMap (·.brand)).dedup)

/-- Stage 3 of `find_products` (brand match). -/
def brandStage (env : SearchEnv) (query : String) (wn : Option (List String)) :
    Option SearchResult :=
  let all_brands := get_available_brands_by_category env "CELULAR"
  match all_brands.find? fun b => pyContains (pyLower query) (pyLower b) with
  | none => none
  | some matched_brand =>
    let rows :=
      (env.db.filter fun p =>
        decide (0 < p.stock) && p.item_group_name == some "DAMASCO TECNO"
          && optILike p.brand matched_brand && scopeOK wn p).take 300
    if rows.isEmpty then none
    else some (.grouped "brand_match" (group_product_results rows))

/-- Insertion sort step by cosine distance (models `ORDER BY cosine_distance`). -/
def insertByDist (key : Product → Rat) (p : Product) : List Product → List Product
  | [] => [p]
  | x :: xs => if key p ≤ key x then p :: x :: xs else x :: insertByDist key p xs

/-- Sorts products by ascending cosine distance to the query embedding. -/
def sortByDist (key : Product → Rat) (l : List Product) : List Product :=
  l.foldr (insertByDist key) []

/-- Stage 4 of `find_products` (vector-similarity fallback): similarity floor
`0.10`, ascending distance, `LIMIT 300`. -/
def vectorStage (env : SearchEnv) (query : String) (wn : Option (List String)) :
    Option SearchResult :=
  match env.getEmbedding query with
  | none => none
  | some q_emb =>
    let key := fun (p : Product) => env.cosineDistance (p.embedding.getD []) q_emb
    let rows :=
      (sortByDist key
        (env.db.filter fun p =>
          decide (0 < p.stock) && p.item_group_name == some "DAMASCO TECNO"
            && scopeOK wn p
            && (match p.embedding with
                | none => false
                | some e => decide ((1 : Rat) - env.cosineDistance e q_emb ≥ 1 / 10)))).take 300
    if rows.isEmpty then none
    else some (.grouped "vector_search" (group_product_results rows))

/-- `find_products`: the four short-circuiting stages plus the final
structured not-found result. -/
def find_products (env : SearchEnv) (query : String) (warehouse_names : Option (List String)) :
    SearchResult :=
  if query = "" then .error "Query cannot be empty."
  else
    match skuStage env query warehouse_names with
    | some r => r
    | none =>
      match specStage env query warehouse_names with
      | some r => r
      | none =>
        match brandStage env query warehouse_names with
        | some r => r
        | none =>
          match vectorStage env query warehouse_names with
          | some r => r
          | none =>
            .notFound "Lo siento, no pude encontrar productos que coincidan con tu búsqueda."

/-- The same pipeline with the specification-filter stage removed; stated from
the spec's words ("spec stage is skipped, falls through to brand/vector
stages") for comparison with `find_products`. -/
def find_products_skipping_spec (env : SearchEnv) (query : String)
    (warehouse_names : Option (List String)) : SearchResult :=
  if query = "" then .error "Query cannot be empty."
  else
    match skuStage env query warehouse_names with
    | some r => r
    | none =>
      match brandStage env query warehouse_names with
      | some r => r
      | none =>
        match vectorStage env query warehouse_names with
        | some r => r
        | none =>
          .notFound "Lo siento, no pude encontrar productos que coincidan con tu búsqueda."

/-! ### JSON values (tool arguments and serialized tool results) -/

/-- A JSON value: tool-call arguments decoded by `json.loads` and the
payloads serialized back to the model by `json.dumps`. -/
inductive JVal
  | null
  | bool (b : Bool)
  | num (q : Rat)
  | str (s : String)
  | arr (xs : List JVal)
  | obj (kvs : List (String × JVal))

/-- Python truthiness of a JSON value. -/
def jvalTruthy : JVal → Bool
  | .null => false
  | .bool b => b
  | .num q => decide (q ≠ 0)
  | .str s => decide (s ≠ "")
  | .arr xs => !xs.isEmpty
  | .obj kvs => !kvs.isEmpty

/-- Serializes a JSON value with `json.dumps` default separators
(`", "` and `": "`, `ensure_ascii=False`); the fuel bounds the nesting depth
(the values of this system are finitely nested, far below the bound), and
string escaping is not modelled (no payload of interest needs it). -/
def jvalDumpsF : Nat → JVal → String
  | _, .null => "null"
  | _, .bool b => if b then "true" else "false"
  | _, .num q => toString q
  | _, .str s => "\"" ++ s ++ "\""
  | 0, .arr _ => ""
  | fuel + 1, .arr xs =>
    "[" ++ String.intercalate ", " (xs.map (jvalDumpsF fuel)) ++ "]"
  | 0, .obj _ => ""
  | fuel + 1, .obj kvs =>
    "\x7b" ++
      String.intercalate ", "
        (kvs.map fun kv => "\"" ++ kv.1 ++ "\": " ++ jvalDumpsF fuel kv.2) ++
      "\x7d"

/-- `json.dumps` (see `jvalDumpsF`). -/
def jvalDumps (v : JVal) : String := jvalDumpsF 1000 v

/-- Key lookup in a decoded JSON object (`args.get(k)`). -/
def argGet (args : List (String × JVal)) (k : String) : Option JVal :=
  (args.find? fun e => e.1 == k).map (·.2)

/-! ### Reservation state (`utils/conversation_details.py`) and
conversation location (`utils/conversation_location.py`) -/

/-- The process-wide in-memory conversation state: the `_conversation_reservations`
and `_conversation_cities` module-level dicts, plus the city→warehouse map
loaded from `data/tiendas_data.json` (a data file outside `src/`, so it is a
field rather than a constant). -/
structure ConvState where
  reservations : String → Option (List (String × JVal))
  cities : String → Option String
  warehouseCityMap : List (String × List String)

def KEY_ITEM_CODE : String := "itemCode_seleccionado"
def KEY_ITEM_NAME : String := "nombre_producto_seleccionado"
def KEY_FULL_NAME : String := "full_name"
def KEY_CEDULA : String := "cedula"
def KEY_PHONE : String := "telefono"
def KEY_EMAIL : String := "correo"
def KEY_DELIVERY_METHOD : String := "delivery_method"
def KEY_BRANCH_NAME : String := "branch_name_seleccionado"
def KEY_DELIVERY_ADDRESS : String := "delivery_address"
def KEY_PAYMENT_METHOD : String := "payment_method"

/-- `store_reservation_detail`: writes one key into the conversation's
reservation dict (created lazily) and returns Python's `None` (modelled as
`none : Option Unit`) together with the updated state. -/
def store_reservation_detail (conversation_id key : String) (value : JVal)
    (st : ConvState) : Option Unit × ConvState :=
  if conversation_id = "" ∨ key = "" then (none, st)
  else
    let reservation := (st.reservations conversation_id).getD []
    let reservation' := assocUpsert reservation key value
    (none,
     { st with
       reservations := fun c =>
         if c = conversation_id then some reservation' else st.reservations c })

/-- `get_reservation_details`. -/
def get_reservation_details (conversation_id : String) (st : ConvState) :
    Option (List (String × JVal)) :=
  st.reservations conversation_id

/-- `get_specific_detail` (via `get_reservation_details`). -/
def get_specific_detail (conversation_id key : String) (st : ConvState) : Option JVal :=
  match get_reservation_details conversation_id st with
  | some reservation => (reservation.find? fun e => e.1 == key).map (·.2)
  | none => none

/-- A reservation value read as a string; Python's `value == "literal"` is
false whenever the stored value is not a string. -/
def resvGetStr (reservation : List (String × JVal)) (key : String) : Option String :=
  match (reservation.find? fun e => e.1 == key).map (·.2) with
  | some (JVal.str s) => some s
  | _ => none

/-- The always-required base reservation fields (this same list is both the
no-reservation default and `required_details` in `get_missing_details`). -/
def required_details : List String :=
  [KEY_FULL_NAME, KEY_CEDULA, KEY_PHONE, KEY_EMAIL, KEY_DELIVERY_METHOD]

/-- The body of `get_missing_details` for an existing reservation dict:
required base fields, plus the branch for store pickup, the address for
`entrega_a_domicilio`, and finally the payment method once nothing else is
missing. -/
def missingFromReservation (reservation : List (String × JVal)) : List String :=
  let hasKey := fun (k : String) => (reservation.find? fun e => e.1 == k).isSome
  let missing0 := required_details.filter fun key => !hasKey key
  let missing1 :=
    if resvGetStr reservation KEY_DELIVERY_METHOD == some "retiro_en_tienda"
        && !hasKey KEY_BRANCH_NAME then
      missing0 ++ [KEY_BRANCH_NAME]
    else missing0
  let missing2 :=
    if resvGetStr reservation KEY_DELIVERY_METHOD == some "entrega_a_domicilio"
        && !hasKey KEY_DELIVERY_ADDRESS then
      missing1 ++ [KEY_DELIVERY_ADDRESS]
    else missing1
  if missing2.isEmpty then
    if !hasKey KEY_PAYMENT_METHOD then [KEY_PAYMENT_METHOD] else []
  else missing2

/-- `get_missing_details`. -/
def get_missing_details (conversation_id : String) (st : ConvState) : List String :=
  match st.reservations conversation_id with
  | none => required_details
  | some reservation => missingFromReservation reservation

/-- `BRANCH_TO_CITY_MAP` from `utils/conversation_location.py`. -/
def BRANCH_TO_CITY_MAP : List (String × String) :=
  [("san martin 1", "caracas"), ("san martin 2", "caracas"), ("san martin 4", "caracas"),
   ("catia barbur", "caracas"), ("catia antuan (gatonegro)", "caracas"),
   ("catia muebleria", "caracas"), ("la candelaria", "caracas"),
   ("las mercedes", "caracas"), ("ccct", "caracas"), ("la trinidad", "caracas"),
   ("sabana grande", "caracas"), ("el paraíso", "caracas"), ("la california", "caracas"),
   ("guatire buenaventura", "guatire"), ("los teques", "los teques"),
   ("la guaira terminal", "terminal la guaira"), ("valencia centro", "valencia"),
   ("valencia 2 norte", "valencia"), ("maracay", "aragua"), ("cagua", "cagua"),
   ("barquisimeto", "barquisimeto"), ("barquisimeto ii", "barquisimeto"),
   ("san cristobal", "tachira"), ("maracaibo", "maracaibo"),
   ("lecheria", "lecherias"), ("lecherías", "lecherias"),
   ("puerto ordaz", "puerto ordaz"), ("maturín", "maturin"), ("valera", "trujillo"),
   ("puerto la cruz", "puerto la cruz"), ("san felipe", "san felipe")]

/-- `_city_synonyms` from `utils/conversation_location.py` (insertion order
matters for the substring fallback). -/
def city_synonyms : List (String × String) :=
  [("caracas", "caracas"), ("ccs", "caracas"), ("maracaibo", "maracaibo"),
   ("mcbo", "maracaibo"), ("valencia", "valencia"),
   ("barquisimeto", "barquisimeto"), ("bqto", "barquisimeto"),
   ("maracay", "aragua"), ("aragua", "aragua"), ("lecheria", "lecherias"),
   ("lecherías", "lecherias"), ("puerto la cruz", "puerto la cruz"),
   ("plc", "puerto la cruz"), ("san cristobal", "tachira"), ("tachira", "tachira"),
   ("maturin", "maturin"), ("puerto ordaz", "puerto ordaz"), ("pzo", "puerto ordaz"),
   ("la guaira", "terminal la guaira"), ("vargas", "terminal la guaira"),
   ("cagua", "cagua"), ("los teques", "los teques"), ("san felipe", "san felipe"),
   ("yaracuy", "san felipe"), ("trujillo", "trujillo"), ("valera", "trujillo"),
   ("guatire", "guatire")]

/-- `detect_city_from_text`: branch names first, then exact synonyms, then
synonym-substring fallback. -/
def detect_city_from_text (text : String) : Option String :=
  let text_lower := pyStrip (pyLower text)
  match (BRANCH_TO_CITY_MAP.find? fun p => p.1 == text_lower).map (·.2) with
  | some city => some city
  | none =>
    match (city_synonyms.find? fun p => p.1 == text_lower).map (·.2) with
    | some city => some city
    | none => (city_synonyms.find? fun p => pyContains text_lower p.1).map (·.2)

/-- `set_conversation_city`: stores the canonical city (detected form, else
the lowercased input). -/
def set_conversation_city (conversation_id city : String) (st : ConvState) : ConvState :=
  let resolved := (detect_city_from_text city).getD (pyLower city)
  { st with
    cities := fun c => if c = conversation_id then some resolved else st.cities c }

/-- `get_conversation_city`. -/
def get_conversation_city (conversation_id : String) (st : ConvState) : Option String :=
  st.cities conversation_id

/-- `get_city_warehouses`: the exact `whsName` list for the conversation's
city, looked up in the (re-canonicalized) city map. -/
def get_city_warehouses (conversation_id : String) (st : ConvState) :
    Option (List String) :=
  match get_conversation_city conversation_id st with
  | none => none
  | some city =>
    if city = "" then none
    else
      let canonical_city := (detect_city_from_text city).getD city
      (st.warehouseCityMap.find? fun p => p.1 == canonical_city).map (·.2)

/-! ### Tool dispatch (`providers/openai_chat_provider.py`) -/

/-- One model-issued tool invocation (`tc.id`, `tc.function.name`,
`tc.function.arguments` — the raw JSON argument string). -/
structure ToolCall where
  id : String
  name : String
  arguments : String
deriving DecidableEq, Repr

/-- One tool-result message appended for the model. -/
structure ToolOutput where
  tool_call_id : String
  role : String
  name : String
  content : String
deriving DecidableEq, Repr

/-- The external collaborator calls the dispatcher makes, as functions of the
already-decoded argument values; `Except.error` models a raised exception
(caught by the dispatcher's `try/except`), and an `Option` result models a
service that can return `None`.  Results that are only serialized back to the
model are abstracted as JSON values. -/
structure Collaborators where
  find_products_svc : Option JVal → Option (List String) → Except String (Option SearchResult)
  get_available_brands_svc : Option JVal → Except String (Option (List String))
  get_branch_address_svc : Option JVal → Option JVal → Except String (Option JVal)
  query_accessories_svc : Option JVal → Option (List String) → Except String (Option (List String))
  get_location_details_from_address_svc : Option JVal → Except String (Option JVal)

/-- The `{"status": "error", "message": m}` payload. -/
def errorPayloadJson (m : String) : String :=
  jvalDumps (.obj [("status", .str "error"), ("message", .str m)])

/-- The catch-all payload of the dispatcher's `except` clause. -/
def internalErrorJson (fn_name : String) : String :=
  errorPayloadJson ("Error interno al ejecutar " ++ fn_name ++ ".")

/-- The payload `_format_results` produces for a `None` result. -/
def formatNoneJson (tool_name : String) : String :=
  errorPayloadJson ("Error interno al ejecutar la herramienta " ++ tool_name ++ ".")

/-- JSON form of an optional string (for serializing results). -/
def optStrJ : Option String → JVal
  | some s => .str s
  | none => .null

/-- JSON form of an optional rational (price column). -/
def optRatJ : Option Rat → JVal
  | some q => .num q
  | none => .null

/-- JSON form of a variant dictionary. -/
def variantJson (v : Variant) : JVal :=
  .obj [("color", .str v.color), ("price", optRatJ v.price),
        ("price_bolivar", optRatJ v.price_bolivar),
        ("full_item_name", .str v.full_item_name), ("item_code", .str v.item_code)]

/-- JSON form of a grouped product entry. -/
def groupEntryJson (g : GroupEntry) : JVal :=
  .obj [("base_name", .str g.base_name), ("brand", optStrJ g.brand),
        ("category", optStrJ g.category), ("sub_category", optStrJ g.sub_category),
        ("marketing_description", .str g.marketing_description),
        ("technical_specs", .str g.technical_specs),
        ("variants", .arr (g.variants.map variantJson)),
        ("locations", .arr (g.locations.map fun l =>
          .obj [("branch_name", .str l.branch_name), ("total_stock", .num l.total_stock)]))]

/-- JSON form of the `product_details` dictionary. -/
def skuDetailsJson (d : SkuDetails) : JVal :=
  .obj [("item_name", .str d.item_name), ("brand", optStrJ d.brand),
        ("category", optStrJ d.category), ("specifitacion", optStrJ d.specifitacion),
        ("variants", .arr (d.variants.map variantJson)),
        ("locations", .arr (d.locations.map fun b => .obj [("branch_name", .str b)]))]

/-- JSON form of a `find_products` result dictionary. -/
def searchResultJson : SearchResult → JVal
  | .error m => .obj [("status", .str "error"), ("message", .str m)]
  | .skuMatch d =>
    .obj [("status", .str "success"), ("product_details", skuDetailsJson d),
          ("search_method", .str "sku_match")]
  | .grouped method gs =>
    .obj [("status", .str "success"),
          ("products_grouped", .arr (gs.map groupEntryJson)),
          ("search_method", .str method)]
  | .notFoundInCity m => .obj [("status", .str "not_found_in_city"), ("message", .str m)]
  | .notFound m => .obj [("status", .str "not_found"), ("message", .str m)]

/-- `_format_results` on an optional search result. -/
def formatSearchResults (o : Option SearchResult) (tool_name : String) : String :=
  match o with
  | none => formatNoneJson tool_name
  | some r => jvalDumps (searchResultJson r)

/-- `_format_results` on an abstract optional JSON result. -/
def formatJValResults (o : Option JVal) (tool_name : String) : String :=
  match o with
  | none => formatNoneJson tool_name
  | some v => jvalDumps v

/-- `_format_brands`. -/
def format_brands (brands : Option (List String)) : String :=
  match brands with
  | some (b :: bs) =>
    jvalDumps (.obj [("status", .str "success"), ("brands", .arr ((b :: bs).map .str))])
  | _ =>
    jvalDumps (.obj [("status", .str "not_found"),
                     ("message", .str "No se encontraron marcas para esa categoría.")])

/-- `search_res.get("products_grouped") or search_res.get("product_details")`
is truthy (the dispatcher's in-city emptiness check; a `None` result is also
treated as empty by the preceding `not search_res`). -/
def optHasProducts : Option SearchResult → Bool
  | some (.grouped _ gs) => !gs.isEmpty
  | some (.skuMatch _) => true
  | _ => false

/-- The payload of the `save_customer_reservation_details` branch. -/
def savedKeysPayload (saved_keys : List String) : String :=
  if saved_keys.isEmpty then jvalDumps (.obj [("status", .str "no_action")])
  else
    jvalDumps (.obj [("status", .str "success"),
      ("message", .str ("OK. Detalles guardados: " ++ String.intercalate ", " saved_keys ++ "."))])

/-- One iteration of the `saved_keys` comprehension in the
`save_customer_reservation_details` branch: run `store_reservation_detail`
(side effect plus Python `None` return value) and collect the key only when
the returned value is truthy. -/
def saveStep (cid : String) (acc2 : List String × ConvState) (kv : String × JVal) :
    List String × ConvState :=
  let r := store_reservation_detail cid kv.1 kv.2 acc2.2
  (if r.1.isSome then acc2.1 ++ [kv.1] else acc2.1, r.2)

/-- The tool names the dispatcher's `if/elif` chain recognizes (note that the
schema's `get_location_details_from_user` is absent: it is only ever injected
by the orchestrator, never dispatched). -/
def knownToolNames : List String :=
  ["find_products", "get_available_brands", "get_branch_address", "query_accessories",
   "get_location_details_from_address", "save_customer_reservation_details",
   "send_whatsapp_order_summary_template"]

/-- One iteration of `_execute_tool_calls`: decode the arguments
(`json.loads` is the abstract `jsonLoads`; `none` is a decode error), run the
`if/elif` dispatch, and catch every fault as a status-error payload.  State
mutations performed before a fault (city pinned, details stored) persist, as
they do in Python. -/
def toolReply (tc : ToolCall) (txt : String) : ToolOutput :=
  { tool_call_id := tc.id, role := "tool", name := tc.name, content := txt }

def executeOneToolCall (collab : Collaborators)
    (jsonLoads : String → Option (List (String × JVal)))
    (sb_conversation_id : String) (st : ConvState) (tc : ToolCall) :
    ToolOutput × ConvState :=
  match jsonLoads tc.arguments with
  | none => (toolReply tc (internalErrorJson tc.name), st)
  | some args =>
    if tc.name = "find_products" then
      match argGet args "city" with
      | none =>
        -- the `if city_arg:` else branch (nationwide search)
        match collab.find_products_svc (argGet args "query") none with
        | .error _ => (toolReply tc (internalErrorJson tc.name), st)
        | .ok res => (toolReply tc (formatSearchResults res tc.name), st)
      | some cityVal =>
        if jvalTruthy cityVal then
          match cityVal with
          | .str city =>
            match get_city_warehouses sb_conversation_id
                (set_conversation_city sb_conversation_id city st) with
            | none =>
              (toolReply tc
                (jvalDumps (.obj [("status", .str "city_not_served"), ("city", .str city)])),
               set_conversation_city sb_conversation_id city st)
            | some [] =>
              (toolReply tc
                (jvalDumps (.obj [("status", .str "city_not_served"), ("city", .str city)])),
               set_conversation_city sb_conversation_id city st)
            | some (w :: ws) =>
              match collab.find_products_svc (argGet args "query") (some (w :: ws)) with
              | .error _ => (toolReply tc (internalErrorJson tc.name),
                             set_conversation_city sb_conversation_id city st)
              | .ok res =>
                if optHasProducts res then
                  (toolReply tc (formatSearchResults res tc.name),
                   set_conversation_city sb_conversation_id city st)
                else
                  (toolReply tc
                    (jvalDumps (.obj [("status", .str "not_found_in_city"), ("city", .str city)])),
                   set_conversation_city sb_conversation_id city st)
          | _ =>
            -- a truthy non-string city raises in `set_conversation_city`
            -- (`city.lower()`), before any state is written
            (toolReply tc (internalErrorJson tc.name), st)
        else
          -- a falsy `city` argument also takes the nationwide else branch
          match collab.find_products_svc (argGet args "query") none with
          | .error _ => (toolReply tc (internalErrorJson tc.name), st)
          | .ok res => (toolReply tc (formatSearchResults res tc.name), st)
    else if tc.name = "get_available_brands" then
      match collab.get_available_brands_svc
          (some ((argGet args "category").getD (.str "CELULAR"))) with
      | .error _ => (toolReply tc (internalErrorJson tc.name), st)
      | .ok brands_list => (toolReply tc (format_brands brands_list), st)
    else if tc.name = "get_branch_address" then
      match collab.get_branch_address_svc (argGet args "branchName") (argGet args "city") with
      | .error _ => (toolReply tc (internalErrorJson tc.name), st)
      | .ok result => (toolReply tc (formatJValResults result tc.name), st)
    else if tc.name = "query_accessories" then
      match collab.query_accessories_svc (argGet args "itemCode")
          (get_city_warehouses sb_conversation_id st) with
      | .error _ => (toolReply tc (internalErrorJson tc.name), st)
      | .ok result =>
        match result with
        | some (a :: rest) =>
          (toolReply tc (jvalDumps (.obj [("status", .str "success"),
            ("accessories_list", .str (String.intercalate ", " (a :: rest)))])), st)
        | _ => (toolReply tc (jvalDumps (.obj [("status", .str "not_found")])), st)
    else if tc.name = "get_location_details_from_address" then
      match collab.get_location_details_from_address_svc (argGet args "address") with
      | .error _ => (toolReply tc (internalErrorJson tc.name), st)
      | .ok result => (toolReply tc (formatJValResults result tc.name), st)
    else if tc.name = "save_customer_reservation_details" then
      match argGet args "city" with
      | some (.str city) =>
        (toolReply tc (savedKeysPayload (args.foldl (saveStep sb_conversation_id) ([], st)).1),
         set_conversation_city sb_conversation_id city
           (args.foldl (saveStep sb_conversation_id) ([], st)).2)
      | some _ =>
        -- a non-string city raises in `set_conversation_city` after the
        -- details were already stored
        (toolReply tc (internalErrorJson tc.name),
         (args.foldl (saveStep sb_conversation_id) ([], st)).2)
      | none =>
        (toolReply tc (savedKeysPayload (args.foldl (saveStep sb_conversation_id) ([], st)).1),
         (args.foldl (saveStep sb_conversation_id) ([], st)).2)
    else if tc.name = "send_whatsapp_order_summary_template" then
      (toolReply tc (jvalDumps (.obj [("status", .str "success"),
        ("message", .str "OK_TEMPLATE_SENT")])), st)
    else
      (toolReply tc (errorPayloadJson ("Herramienta desconocida \x27" ++ tc.name ++ "\x27.")), st)

/-- `_execute_tool_calls`: runs every requested call in order, threading the
conversation state, and returns exactly one tool-result entry per call. -/
def execute_tool_calls (collab : Collaborators)
    (jsonLoads : String → Option (List (String × JVal)))
    (sb_conversation_id : String) :
    ConvState → List ToolCall → List ToolOutput × ConvState
  | st, [] => ([], st)
  | st, tc :: rest =>
    let first := executeOneToolCall collab jsonLoads sb_conversation_id st tc
    let next := execute_tool_calls collab jsonLoads sb_conversation_id first.2 rest
    (first.1 :: next.1, next.2)

/-! ### Orchestration loop (`process_message`) and reply selection
(`ai_service.process_new_message`) -/

/-- `self.tool_call_retry_limit` (`openai_chat_provider.py`, line 161). -/
def tool_call_retry_limit : Nat := 2

/-- One model completion: the raw message to append back to the context
(`response_message.model_dump(...)`, abstracted as `dump`), the requested tool
calls, and the final text content. -/
structure ModelResponse (α : Type) where
  dump : α
  tool_calls : List ToolCall
  content : Option String

/-- The `while tool_call_count <= self.tool_call_retry_limit` loop of
`process_message`, over an abstract message type `α`, an abstract model
(`chat.completions.create`) and an abstract tool executor (the message-list
effect of `_execute_tool_calls`).  The fuel equals
`tool_call_retry_limit + 1 - tool_call_count`, so fuel `0` is exactly the
loop exit with `final_assistant_response` still `None`; the second component
counts model rounds. -/
def chatLoopAux {α : Type} (model : List α → ModelResponse α)
    (execT : List ToolCall → List α) :
    Nat → List α → Nat → Option String × Nat
  | 0, _, rounds => (none, rounds)
  | fuel + 1, messages, rounds =>
    let r := model messages
    let messages1 := messages ++ [r.dump]
    if r.tool_calls.isEmpty then (r.content, rounds + 1)
    else chatLoopAux model execT fuel (messages1 ++ execT r.tool_calls) (rounds + 1)

/-- The tool-calling loop of `process_message`, started with
`tool_call_count = 0`: returns `final_assistant_response` and the number of
model rounds performed. -/
def process_message_loop {α : Type} (model : List α → ModelResponse α)
    (execT : List ToolCall → List α) (messages0 : List α) : Option String × Nat :=
  chatLoopAux model execT (tool_call_retry_limit + 1) messages0 0

/-- The fixed fallback sent by `process_new_message` when the provider
returned no (truthy) response. -/
def fallback_reply : String := "Lo siento, no pude generar una respuesta en este momento."

/-- The single reply `process_new_message` hands to the gateway: the
provider's text when truthy, else the fixed fallback. -/
def process_new_message_reply (final_assistant_response : Option String) : String :=
  match final_assistant_response with
  | some t => if t = "" then fallback_reply else t
  | none => fallback_reply

/-! ### Support lemmas: shape of canonical warehouse names (claim C7) -/

/-- The alphabet of canonical warehouse names: ASCII alphanumeric or `_`. -/
def isAsciiAlnumU (c : Char) : Bool := isAsciiAlnum c || c == '_'

/-- No two consecutive underscores occur in the list. -/
def noDoubleUnd : List Char → Prop
  | c :: d :: rest => ¬(c = '_' ∧ d = '_') ∧ noDoubleUnd (d :: rest)
  | _ => True

theorem isAsciiAlnumU_toNat {c : Char} (h : isAsciiAlnumU c = true) :
    48 ≤ c.toNat ∧ c.toNat ≤ 122 := by
  simp only [isAsciiAlnumU, isAsciiAlnum, Bool.or_eq_true, Bool.and_eq_true,
    decide_eq_true_eq, beq_iff_eq] at h
  rcases h with ((⟨h1, h2⟩ | ⟨h1, h2⟩) | ⟨h1, h2⟩) | h0
  · omega
  · omega
  · omega
  · subst h0; decide

theorem unaccentChar_fixed (c : Char) (h : isAsciiAlnumU c = true) :
    unaccentChar c = c := by
  have hle := (isAsciiAlnumU_toNat h).2
  have htab : ∀ p ∈ accentPairs, 160 ≤ p.1.toNat := by decide
  have hnone : accentPairs.find? (fun p => p.1 == c) = none := by
    rw [List.find?_eq_none]
    intro p hp
    simp only [beq_iff_eq]
    intro he
    have h1 := htab p hp
    rw [he] at h1
    omega
  unfold unaccentChar
  rw [hnone]
  rfl

theorem isAsciiAlnumU_not_ws (c : Char) (h : isAsciiAlnumU c = true) :
    c.isWhitespace = false := by
  have hge := (isAsciiAlnumU_toNat h).1
  have hne : ∀ d : Char, d.toNat < 48 → c ≠ d := by
    intro d hd he
    subst he
    omega
  simp only [Char.isWhitespace, Bool.or_eq_false_iff, decide_eq_false_iff_not]
  exact ⟨⟨⟨hne ' ' (by decide), hne '\t' (by decide)⟩, hne '\r' (by decide)⟩,
    hne '\n' (by decide)⟩

theorem toNat_ofNat_valid (m : Nat) (h : m < 55296) : (Char.ofNat m).toNat = m := by
  unfold Char.ofNat
  rw [dif_pos (Or.inl h)]
  rfl

theorem toUpper_facts (c : Char) (h : isAsciiAlnumU c = true) :
    isAsciiAlnumU c.toUpper = true ∧ c.toUpper.toUpper = c.toUpper ∧
      (c.toUpper = '_' ↔ c = '_') := by
  have h95 : ('_' : Char).toNat = 95 := by decide
  simp only [isAsciiAlnumU, isAsciiAlnum, Bool.or_eq_true, Bool.and_eq_true,
    decide_eq_true_eq, beq_iff_eq] at h
  rcases h with ((⟨h1, h2⟩ | ⟨h1, h2⟩) | ⟨h1, h2⟩) | h0
  · have hfix : c.toUpper = c := by
      unfold Char.toUpper; rw [if_neg (by omega)]
    rw [hfix]
    refine ⟨?_, hfix, Iff.rfl⟩
    simp only [isAsciiAlnumU, isAsciiAlnum, Bool.or_eq_true, Bool.and_eq_true,
      decide_eq_true_eq, beq_iff_eq]
    exact Or.inl (Or.inl (Or.inl ⟨h1, h2⟩))
  · have hup : c.toUpper = Char.ofNat (c.toNat - 32) := by
      unfold Char.toUpper; rw [if_pos ⟨h1, h2⟩]
    have hm : (Char.ofNat (c.toNat - 32)).toNat = c.toNat - 32 :=
      toNat_ofNat_valid _ (by omega)
    rw [hup]
    refine ⟨?_, ?_, ?_⟩
    · simp only [isAsciiAlnumU, isAsciiAlnum, Bool.or_eq_true, Bool.and_eq_true,
        decide_eq_true_eq, beq_iff_eq]
      exact Or.inl (Or.inl (Or.inl ⟨by omega, by omega⟩))
    · unfold Char.toUpper; rw [if_neg (by rw [hm]; omega)]
    · constructor
      · intro he
        have hn := congrArg Char.toNat he
        rw [hm, h95] at hn
        omega
      · intro he
        have hn := congrArg Char.toNat he
        rw [h95] at hn
        omega
  · have hfix : c.toUpper = c := by
      unfold Char.toUpper; rw [if_neg (by omega)]
    rw [hfix]
    refine ⟨?_, hfix, Iff.rfl⟩
    simp only [isAsciiAlnumU, isAsciiAlnum, Bool.or_eq_true, Bool.and_eq_true,
      decide_eq_true_eq, beq_iff_eq]
    exact Or.inl (Or.inr ⟨h1, h2⟩)
  · subst h0
    exact ⟨by decide, by decide, Iff.rfl⟩

theorem rdropWhile_append (p : Char → Bool) (l : List Char) :
    ∃ t, l.rdropWhile p ++ t = l := by
  obtain ⟨t, ht⟩ := List.dropWhile_suffix (l := l.reverse) p
  refine ⟨t.reverse, ?_⟩
  have h2 := congrArg List.reverse ht
  rw [List.reverse_append, List.reverse_reverse] at h2
  rw [List.rdropWhile]
  exact h2

theorem rdropWhile_eq_take (p : Char → Bool) (l : List Char) :
    ∃ k, l.rdropWhile p = l.take k := by
  obtain ⟨t, ht⟩ := rdropWhile_append p l
  refine ⟨(l.rdropWhile p).length, ?_⟩
  have htake := List.take_left (l.rdropWhile p) t
  rw [ht] at htake
  exact htake.symm

theorem mem_rdropWhile {p : Char → Bool} {l : List Char} {a : Char}
    (h : a ∈ l.rdropWhile p) : a ∈ l := by
  obtain ⟨k, hk⟩ := rdropWhile_eq_take p l
  rw [hk] at h
  exact List.take_subset _ _ h

theorem head?_rdropWhile {p : Char → Bool} {l : List Char}
    (h : l.rdropWhile p ≠ []) : (l.rdropWhile p).head? = l.head? := by
  obtain ⟨t, ht⟩ := rdropWhile_append p l
  conv_rhs => rw [← ht]
  rcases hr : l.rdropWhile p with _ | ⟨c, cs⟩
  · exact absurd hr h
  · simp

theorem rdropWhile_eq_self_of_not {p : Char → Bool} {l : List Char}
    (h : ∀ c ∈ l, p c = false) : l.rdropWhile p = l := by
  rw [List.rdropWhile_eq_self_iff]
  intro hl
  rw [h _ (List.getLast_mem hl)]
  simp

theorem rdropWhile_eq_self_of_last {l : List Char}
    (h : l.getLast? ≠ some '_') : l.rdropWhile (· == '_') = l := by
  rw [List.rdropWhile_eq_self_iff]
  intro hl hp
  simp only [beq_iff_eq] at hp
  exact h (by rw [List.getLast?_eq_getLast l hl, hp])

theorem dropWhile_eq_self_of_not {p : Char → Bool} {l : List Char}
    (h : ∀ c ∈ l, p c = false) : l.dropWhile p = l := by
  cases l with
  | nil => rfl
  | cons c cs =>
    rw [List.dropWhile_cons, h c (List.mem_cons_self c cs)]
    simp

theorem dropWhile_und_eq_self_of_head {l : List Char}
    (h : l.head? ≠ some '_') : l.dropWhile (· == '_') = l := by
  cases l with
  | nil => rfl
  | cons c cs =>
    rw [List.dropWhile_cons]
    have hc : c ≠ '_' := fun he => h (by rw [List.head?_cons, he])
    simp [hc]

theorem head?_dropWhile_und (l : List Char) :
    (l.dropWhile (· == '_')).head? ≠ some '_' := by
  induction l with
  | nil => simp
  | cons c cs ih =>
    by_cases hc : c = '_'
    · rw [List.dropWhile_cons, if_pos (by simp [hc])]
      exact ih
    · rw [List.dropWhile_cons, if_neg (by simp [hc]), List.head?_cons]
      intro he
      exact hc (by injection he)

theorem noDoubleUnd_tail {c : Char} {l : List Char} (h : noDoubleUnd (c :: l)) :
    noDoubleUnd l := by
  cases l with
  | nil => trivial
  | cons d ds => exact h.2

theorem noDoubleUnd_cons_of_ne {c : Char} {l : List Char} (hc : c ≠ '_')
    (h : noDoubleUnd l) : noDoubleUnd (c :: l) := by
  cases l with
  | nil => trivial
  | cons d ds => exact ⟨fun hb => hc hb.1, h⟩

theorem noDoubleUnd_cons_of_head {c : Char} {l : List Char}
    (hh : l.head? ≠ some '_') (h : noDoubleUnd l) : noDoubleUnd (c :: l) := by
  cases l with
  | nil => trivial
  | cons d ds => exact ⟨fun hb => hh (by rw [List.head?_cons, hb.2]), h⟩

theorem noDoubleUnd_take {l : List Char} (h : noDoubleUnd l) :
    ∀ n, noDoubleUnd (l.take n) := by
  induction l with
  | nil => intro n; rw [List.take_nil]; trivial
  | cons c cs ih =>
    intro n
    cases n with
    | zero => rw [List.take_zero]; trivial
    | succ m =>
      rw [List.take_succ_cons]
      cases cs with
      | nil => rw [List.take_nil]; trivial
      | cons d ds =>
        have htail := ih (noDoubleUnd_tail h) m
        cases m with
        | zero => rw [List.take_zero]; trivial
        | succ k =>
          rw [List.take_succ_cons] at htail ⊢
          exact ⟨h.1, htail⟩

theorem noDoubleUnd_dropWhile {p : Char → Bool} {l : List Char}
    (h : noDoubleUnd l) : noDoubleUnd (l.dropWhile p) := by
  induction l with
  | nil => trivial
  | cons c cs ih =>
    rw [List.dropWhile_cons]
    by_cases hp : p c = true
    · rw [if_pos hp]
      exact ih (noDoubleUnd_tail h)
    · rw [if_neg hp]
      exact h

theorem noDoubleUnd_rdropWhile {p : Char → Bool} {l : List Char}
    (h : noDoubleUnd l) : noDoubleUnd (l.rdropWhile p) := by
  obtain ⟨k, hk⟩ := rdropWhile_eq_take p l
  rw [hk]
  exact noDoubleUnd_take h k

theorem noDoubleUnd_map {f : Char → Char} {l : List Char}
    (hm : ∀ c ∈ l, (f c = '_' ↔ c = '_')) (h : noDoubleUnd l) :
    noDoubleUnd (l.map f) := by
  induction l with
  | nil => trivial
  | cons c cs ih =>
    rw [List.map_cons]
    cases cs with
    | nil => trivial
    | cons d ds =>
      rw [List.map_cons]
      refine ⟨fun hb => h.1 ⟨?_, ?_⟩, ?_⟩
      · exact (hm c (List.mem_cons_self _ _)).1 hb.1
      · exact (hm d (List.mem_cons_of_mem _ (List.mem_cons_self _ _))).1 hb.2
      · have := ih (fun a ha => hm a (List.mem_cons_of_mem _ ha)) (noDoubleUnd_tail h)
        rw [List.map_cons] at this
        exact this

theorem mem_sanitizeAux {b : Bool} {l : List Char} {a : Char}
    (h : a ∈ sanitizeAux b l) : isAsciiAlnumU a = true := by
  induction l generalizing b with
  | nil => simp [sanitizeAux] at h
  | cons c cs ih =>
    rw [sanitizeAux] at h
    by_cases hc : isAsciiAlnum c = true
    · rw [if_pos hc] at h
      rcases List.mem_cons.1 h with h | h
      · subst h; simp [isAsciiAlnumU, hc]
      · exact ih h
    · rw [if_neg hc] at h
      cases b with
      | true =>
        rw [if_pos rfl] at h
        exact ih h
      | false =>
        rw [if_neg (by simp)] at h
        rcases List.mem_cons.1 h with h | h
        · subst h; decide
        · exact ih h

theorem sanitizeAux_head_true (l : List Char) :
    (sanitizeAux true l).head? ≠ some '_' := by
  induction l with
  | nil => simp [sanitizeAux]
  | cons c cs ih =>
    rw [sanitizeAux]
    by_cases hc : isAsciiAlnum c = true
    · rw [if_pos hc, List.head?_cons]
      intro he
      have hcu : c = '_' := by injection he
      subst hcu
      exact absurd hc (by decide)
    · rw [if_neg hc, if_pos rfl]
      exact ih

theorem noDoubleUnd_sanitizeAux (b : Bool) (l : List Char) :
    noDoubleUnd (sanitizeAux b l) := by
  induction l generalizing b with
  | nil => trivial
  | cons c cs ih =>
    rw [sanitizeAux]
    by_cases hc : isAsciiAlnum c = true
    · rw [if_pos hc]
      refine noDoubleUnd_cons_of_ne ?_ (ih false)
      intro he; subst he; exact absurd hc (by decide)
    · rw [if_neg hc]
      cases b with
      | true => exact ih true
      | false =>
        rw [if_neg (by simp)]
        exact noDoubleUnd_cons_of_head (sanitizeAux_head_true cs) (ih true)

theorem sanitizeAux_eq_self {l : List Char}
    (hchars : ∀ c ∈ l, isAsciiAlnumU c = true) (hdd : noDoubleUnd l) :
    sanitizeAux false l = l ∧ (l.head? ≠ some '_' → sanitizeAux true l = l) := by
  induction l with
  | nil => exact ⟨rfl, fun _ => rfl⟩
  | cons c cs ih =>
    have hc := hchars c (List.mem_cons_self _ _)
    have ihcs := ih (fun a ha => hchars a (List.mem_cons_of_mem _ ha))
      (noDoubleUnd_tail hdd)
    simp only [isAsciiAlnumU, Bool.or_eq_true, beq_iff_eq] at hc
    rcases hc with hc | hc
    · refine ⟨?_, fun _ => ?_⟩ <;>
        (rw [sanitizeAux, if_pos hc, ihcs.1])
    · subst hc
      constructor
      · rw [sanitizeAux, if_neg (by decide), if_neg (by simp)]
        have hh : cs.head? ≠ some '_' := by
          cases cs with
          | nil => simp
          | cons d ds =>
            rw [List.head?_cons]
            intro he
            have hd : d = '_' := by injection he
            exact hdd.1 ⟨rfl, hd⟩
        rw [ihcs.2 hh]
      · intro hcontra
        exact absurd rfl hcontra

theorem mapFixes {α : Type} {f : α → α} {l : List α}
    (h : ∀ a ∈ l, f a = a) : l.map f = l := by
  induction l with
  | nil => rfl
  | cons c cs ih =>
    rw [List.map_cons, h c (List.mem_cons_self _ _),
      ih (fun a ha => h a (List.mem_cons_of_mem _ ha))]

/-- The canonical list: the value of `result` in
`python_equivalent_of_canonicalize_whs` just before truncation. -/
def canonList (x : String) : List Char :=
  List.rdropWhile (· == '_')
    (((sanitizeAux false ((pyStrip x).data.map unaccentChar)).map Char.toUpper).dropWhile
      (· == '_'))

theorem canonicalize_whs_eq (x : String) :
    python_equivalent_of_canonicalize_whs x =
      if pyStrip x = "" then ""
      else if canonList x = [] then "CANONICAL_EMPTY_WHS"
      else String.mk ((canonList x).take 255) := rfl

theorem canonList_chars {x : String} {c : Char} (h : c ∈ canonList x) :
    isAsciiAlnumU c = true ∧ c.toUpper = c := by
  have h1 : c ∈ (sanitizeAux false ((pyStrip x).data.map unaccentChar)).map Char.toUpper :=
    List.dropWhile_subset _ (mem_rdropWhile h)
  rcases List.mem_map.1 h1 with ⟨d, hd, hdc⟩
  have hdU := mem_sanitizeAux hd
  obtain ⟨hU1, hU2, _⟩ := toUpper_facts d hdU
  subst hdc
  exact ⟨hU1, hU2⟩

theorem canonList_noDD (x : String) : noDoubleUnd (canonList x) := by
  apply noDoubleUnd_rdropWhile
  apply noDoubleUnd_dropWhile
  apply noDoubleUnd_map
  · intro c hc
    exact (toUpper_facts c (mem_sanitizeAux hc)).2.2
  · exact noDoubleUnd_sanitizeAux false _

theorem canonList_head (x : String) : (canonList x).head? ≠ some '_' := by
  by_cases hnil : canonList x = []
  · rw [hnil]; simp
  · rw [canonList] at hnil ⊢
    rw [head?_rdropWhile hnil]
    exact head?_dropWhile_und _

/-! ### Claim C7: idempotence of warehouse-name canonicalization -/

/-- A 256-character warehouse name whose canonical form is truncated to 255
characters right at an internal underscore. -/
def truncationInput : String := String.mk (List.replicate 254 'A' ++ [' ', 'B'])

/-- C7 counterexample: warehouse-name canonicalization is NOT idempotent for
every input.  For the 256-character input `"A"*254 ++ " B"` the first pass
yields 254 `A`s followed by `_` (the 255-character truncation cuts at the
underscore separating the two words), and the second pass strips that now
trailing underscore, yielding a different, 254-character string. -/
theorem canonicalize_whs_not_idempotent_at_256 :
    python_equivalent_of_canonicalize_whs
        (python_equivalent_of_canonicalize_whs truncationInput) ≠
      python_equivalent_of_canonicalize_whs truncationInput := by decide

/-- C7 (amended): canonicalization is idempotent for every input string whose
canonical form does not end in an underscore — equivalently, whenever the
255-character truncation does not cut right after an internal underscore.
(Empty, all-symbol and accented inputs are all covered; only truncated inputs
ending in `_` fail, as the counterexample shows.) -/
theorem canonicalize_whs_idempotent_of_no_trailing_underscore (x : String)
    (h : (python_equivalent_of_canonicalize_whs x).data.getLast? ≠ some '_') :
    python_equivalent_of_canonicalize_whs (python_equivalent_of_canonicalize_whs x) =
      python_equivalent_of_canonicalize_whs x := by
  by_cases h0 : pyStrip x = ""
  · rw [canonicalize_whs_eq x, if_pos h0]
    decide
  · by_cases h1 : canonList x = []
    · rw [canonicalize_whs_eq x, if_neg h0, if_pos h1]
      decide
    · rw [canonicalize_whs_eq x, if_neg h0, if_neg h1] at h ⊢
      set y := (canonList x).take 255 with hy
      have hysub : ∀ c ∈ y, c ∈ canonList x := by
        intro c hc
        rw [hy] at hc
        exact List.take_subset _ _ hc
      have hchars : ∀ c ∈ y, isAsciiAlnumU c = true :=
        fun c hc => (canonList_chars (hysub c hc)).1
      have hupper : ∀ c ∈ y, c.toUpper = c :=
        fun c hc => (canonList_chars (hysub c hc)).2
      have hdd : noDoubleUnd y := by
        rw [hy]
        exact noDoubleUnd_take (canonList_noDD x) 255
      have hynil : y ≠ [] := by
        rw [hy]
        intro hc
        rcases List.take_eq_nil_iff.1 hc with h255 | hcl
        · exact absurd h255 (by decide)
        · exact h1 hcl
      have hhead : y.head? ≠ some '_' := by
        have hch := canonList_head x
        cases hcl : canonList x with
        | nil => exact absurd hcl h1
        | cons a as =>
          rw [hy, hcl, show (255 : Nat) = 254 + 1 from rfl, List.take_succ_cons,
            List.head?_cons]
          rw [hcl, List.head?_cons] at hch
          exact hch
      have hlast : y.getLast? ≠ some '_' := h
      have hnws : ∀ c ∈ y, c.isWhitespace = false :=
        fun c hc => isAsciiAlnumU_not_ws c (hchars c hc)
      have hstrip : pyStrip (String.mk y) = String.mk y := by
        show String.mk (List.rdropWhile Char.isWhitespace
          (y.dropWhile Char.isWhitespace)) = String.mk y
        rw [dropWhile_eq_self_of_not hnws, rdropWhile_eq_self_of_not hnws]
      have hmkne : String.mk y ≠ "" := fun hc => hynil (congrArg String.data hc)
      have hcl2 : canonList (String.mk y) = y := by
        rw [canonList, hstrip]
        show List.rdropWhile (· == '_')
          (((sanitizeAux false (y.map unaccentChar)).map Char.toUpper).dropWhile
            (· == '_')) = y
        rw [mapFixes (fun a ha => unaccentChar_fixed a (hchars a ha)),
          (sanitizeAux_eq_self hchars hdd).1, mapFixes hupper,
          dropWhile_und_eq_self_of_head hhead, rdropWhile_eq_self_of_last hlast]
      rw [canonicalize_whs_eq (String.mk y), if_neg (by rw [hstrip]; exact hmkne),
        if_neg (by rw [hcl2]; exact hynil), hcl2]
      have hlen : y.length ≤ 255 := by
        rw [hy, List.length_take]
        exact min_le_left _ _
      rw [List.take_of_length_le hlen]

/-- C7 witness: the amended idempotence theorem applied to the concrete
accented, symbol-laden input `" Almacén Principal!! "`. -/
theorem canonicalize_whs_idempotent_witness :
    (python_equivalent_of_canonicalize_whs " Almacén Principal!! ").data.getLast? ≠
        some '_' ∧
      python_equivalent_of_canonicalize_whs
          (python_equivalent_of_canonicalize_whs " Almacén Principal!! ") =
        python_equivalent_of_canonicalize_whs " Almacén Principal!! " :=
  ⟨by decide, canonicalize_whs_idempotent_of_no_trailing_underscore _ (by decide)⟩

/-! ### Sample catalog data (used by witnesses) -/

/-- A concrete in-stock catalog row of the monitored product group. -/
def sampleProduct : Product :=
  { item_code := "D0001"
    item_name := "CELULAR SAMSUNG A15 128GB AZUL"
    description := none
    llm_summarized_description := none
    specifitacion := some "128GB RAM 4GB"
    category := some "CELULAR"
    sub_category := some "CELULAR"
    brand := some "SAMSUNG"
    item_group_name := some "DAMASCO TECNO"
    warehouse_name := "ALMACEN CCCT"
    branch_name := some "CCCT"
    store_address := some "Av. Principal"
    price := some 120
    price_bolivar := none
    stock := 5
    embedding := none }

/-- A one-row search environment with no embedding backend. -/
def sampleEnv : SearchEnv :=
  { db := [sampleProduct]
    getEmbedding := fun _ => none
    cosineDistance := fun _ _ => 0 }

/-! ### Claim C4: invariants of the specification-filter stage -/

/-- C4: every row returned by the specification-filter stage of
`find_products` has stock > 0, belongs to the monitored product group
`"DAMASCO TECNO"`, has exactly the detected sub-category, and the stage
returns at most 300 rows — for every query and warehouse scope. -/
theorem spec_stage_rows_invariant (env : SearchEnv) (query : String)
    (wn : Option (List String)) :
    (∀ p ∈ specStageRows env query wn,
        0 < p.stock ∧ p.item_group_name = some "DAMASCO TECNO" ∧
          p.sub_category = detectSubCategory query) ∧
      (specStageRows env query wn).length ≤ 300 := by
  constructor
  · intro p hp
    rw [specStageRows] at hp
    split at hp
    · next vu cat heq1 heq2 =>
      have hp' := List.take_subset _ _ hp
      rw [List.mem_filter] at hp'
      obtain ⟨-, hcond⟩ := hp'
      simp only [Bool.and_eq_true, decide_eq_true_eq, beq_iff_eq,
        Bool.or_eq_true] at hcond
      refine ⟨hcond.1.1.1.1, hcond.1.1.1.2, ?_⟩
      rw [heq2]
      exact hcond.1.1.2
    · next => simp at hp
  · rw [specStageRows]
    split
    · rw [List.length_take]
      exact min_le_left _ _
    · simp

/-- C4 witness: the invariant evaluated on a concrete row found by the
query `"celular 128gb"` in the sample catalog. -/
theorem spec_stage_rows_invariant_witness :
    0 < sampleProduct.stock ∧
      sampleProduct.item_group_name = some "DAMASCO TECNO" ∧
      sampleProduct.sub_category = detectSubCategory "celular 128gb" :=
  (spec_stage_rows_invariant sampleEnv "celular 128gb" none).1 sampleProduct (by decide)

/-! ### Claim C5: the spec stage requires both signals -/

/-- C5: for every query where the quantity+unit regex matches but no category
keyword occurs, the specification-filter stage is skipped entirely (both
signals are required) and `find_products` equals the pipeline that falls
through from the SKU stage directly to the brand and vector stages. -/
theorem spec_stage_skipped_without_category (env : SearchEnv) (query : String)
    (wn : Option (List String)) (vu : String × String)
    (hs : specRegexSearch query = some vu)
    (hd : detectSubCategory query = none) :
    specStage env query wn = none ∧
      find_products env query wn = find_products_skipping_spec env query wn := by
  have hstage : specStage env query wn = none := by
    rw [specStage, hs, hd]
  refine ⟨hstage, ?_⟩
  rw [find_products, find_products_skipping_spec]
  by_cases hq : query = ""
  · rw [if_pos hq, if_pos hq]
  · rw [if_neg hq, if_neg hq]
    cases hsku : skuStage env query wn with
    | some r => rfl
    | none => rw [hstage]

/-- C5 witness: the scenario query `"iPhone 15 Pro 256GB"` — the regex
captures `("256", "GB")`, no category keyword is detected, and the search
falls through past the skipped spec stage. -/
theorem spec_stage_skipped_witness :
    specRegexSearch "iPhone 15 Pro 256GB" = some ("256", "GB") ∧
      detectSubCategory "iPhone 15 Pro 256GB" = none ∧
      specStage sampleEnv "iPhone 15 Pro 256GB" none = none ∧
      find_products sampleEnv "iPhone 15 Pro 256GB" none =
        find_products_skipping_spec sampleEnv "iPhone 15 Pro 256GB" none :=
  ⟨by decide, by decide,
    (spec_stage_skipped_without_category sampleEnv "iPhone 15 Pro 256GB" none
      ("256", "GB") (by decide) (by decide)).1,
    (spec_stage_skipped_without_category sampleEnv "iPhone 15 Pro 256GB" none
      ("256", "GB") (by decide) (by decide)).2⟩

/-! ### Claim C2: SKU found only outside the requested city -/

/-- C2: for every query and non-empty warehouse scope, if the SKU lookup
finds rows (case-insensitive `item_code` equality) but none of them lies in
the scope, `find_products` returns the distinct `not_found_in_city` result,
not the generic `not_found`. -/
theorem sku_outside_scope_is_not_found_in_city (env : SearchEnv) (query : String)
    (ws : List String) (hws : ws ≠ [])
    (hrows : get_live_product_details_by_sku env query ≠ [])
    (hnone : ∀ p ∈ get_live_product_details_by_sku env query,
      p.warehouse_name ∉ ws) :
    find_products env query (some ws) =
      .notFoundInCity
        "Producto encontrado pero sin stock para retiro en la ciudad especificada." := by
  have hq : query ≠ "" := by
    intro hq
    rw [hq] at hrows
    exact hrows rfl
  have hot : optTruthy (some ws) = true := by
    cases ws with
    | nil => exact absurd rfl hws
    | cons a as => rfl
  have hsku : skuStage env query (some ws) = some (.notFoundInCity
      "Producto encontrado pero sin stock para retiro en la ciudad especificada.") := by
    rw [skuStage]
    rw [if_neg (by rw [List.isEmpty_iff]; exact hrows)]
    have hav : (get_live_product_details_by_sku env query).filter
        (fun p => !optTruthy (some ws) ||
          ((some ws).getD []).contains p.warehouse_name) = [] := by
      rw [List.filter_eq_nil_iff]
      intro p hp
      simp only [hot, Bool.not_true, Bool.false_or, Option.getD_some]
      simp only [List.elem_eq_mem, decide_eq_true_eq]
      exact hnone p hp
    rw [hav]
    simp [hot]
  rw [find_products, if_neg hq, hsku]

/-- C2 witness: the SKU `"d0001"` exists (in warehouse `"ALMACEN CCCT"`) but
the requested scope contains only `"ALMACEN VALENCIA"`. -/
theorem sku_outside_scope_witness :
    find_products sampleEnv "d0001" (some ["ALMACEN VALENCIA"]) =
      .notFoundInCity
        "Producto encontrado pero sin stock para retiro en la ciudad especificada." :=
  sku_outside_scope_is_not_found_in_city sampleEnv "d0001" ["ALMACEN VALENCIA"]
    (by decide) (by decide) (by decide)

/-! ### Claim C10: home-delivery reservations never require an address -/

/-- The `enum` of `delivery_method` in the `save_customer_reservation_details`
tool schema (`openai_chat_provider.py`, line 100). -/
def delivery_method_schema_enum : List String :=
  ["retiro_en_tienda", "envio_a_domicilio_caracas", "envio_nacional"]

/-- C10: for every conversation state whose stored `delivery_method` is one of
the three values the tool schema permits, `get_missing_details` never contains
the delivery-address key — the address requirement triggers only on the value
`"entrega_a_domicilio"`, which the schema cannot produce, so a home-delivery
reservation is considered complete without any delivery address. -/
theorem schema_delivery_methods_never_require_address (st : ConvState)
    (cid : String) (reservation : List (String × JVal)) (m : String)
    (hres : st.reservations cid = some reservation)
    (hm : resvGetStr reservation KEY_DELIVERY_METHOD = some m)
    (hmem : m ∈ delivery_method_schema_enum) :
    KEY_DELIVERY_ADDRESS ∉ get_missing_details cid st := by
  have haddr_req : KEY_DELIVERY_ADDRESS ∉ required_details := by decide
  have haddr_branch : KEY_DELIVERY_ADDRESS ≠ KEY_BRANCH_NAME := by decide
  have haddr_pay : KEY_DELIVERY_ADDRESS ≠ KEY_PAYMENT_METHOD := by decide
  have hc2 : (resvGetStr reservation KEY_DELIVERY_METHOD ==
      some "entrega_a_domicilio") = false := by
    rw [hm, beq_eq_false_iff_ne]
    intro he
    have hme : m = "entrega_a_domicilio" := by injection he
    subst hme
    exact absurd hmem (by decide)
  rw [get_missing_details, hres]
  show KEY_DELIVERY_ADDRESS ∉ missingFromReservation reservation
  intro hcontra
  unfold missingFromReservation at hcontra
  simp only [hc2, Bool.false_and] at hcontra
  rw [if_neg (by decide : ¬(false = true))] at hcontra
  split at hcontra <;> try split at hcontra <;> try split at hcontra
  all_goals
    first
      | exact absurd hcontra (List.not_mem_nil _)
      | exact haddr_pay (List.mem_singleton.1 hcontra)
      | exact haddr_req (List.mem_filter.1 hcontra).1
      | (rcases List.mem_append.1 hcontra with h1 | h1
         · exact haddr_req (List.mem_filter.1 h1).1
         · exact haddr_branch (List.mem_singleton.1 h1))

/-- A conversation state with one home-delivery reservation stored. -/
def homeDeliveryState : ConvState :=
  { reservations := fun c =>
      if c = "conv1" then some [(KEY_DELIVERY_METHOD, JVal.str "envio_a_domicilio_caracas")]
      else none
    cities := fun _ => none
    warehouseCityMap := [] }

/-- C10 witness: a reservation whose only detail is
`delivery_method = "envio_a_domicilio_caracas"` does not get asked for a
delivery address. -/
theorem schema_delivery_methods_witness :
    KEY_DELIVERY_ADDRESS ∉ get_missing_details "conv1" homeDeliveryState :=
  schema_delivery_methods_never_require_address homeDeliveryState "conv1"
    [(KEY_DELIVERY_METHOD, JVal.str "envio_a_domicilio_caracas")]
    "envio_a_domicilio_caracas" (by simp [homeDeliveryState]) (by decide) (by decide)

/-! ### Claim C1: round cap of the orchestration loop and fallback reply -/

/-- The loop runs its full fuel when the model always requests tools: no
final text, one model round per unit of fuel. -/
theorem chatLoopAux_all_tool_calls {α : Type} (model : List α → ModelResponse α)
    (execT : List ToolCall → List α) (h : ∀ ms, (model ms).tool_calls ≠ []) :
    ∀ (fuel : Nat) (ms : List α) (rounds : Nat),
      chatLoopAux model execT fuel ms rounds = (none, rounds + fuel) := by
  intro fuel
  induction fuel with
  | zero => intro ms rounds; rfl
  | succ f ih =>
    intro ms rounds
    rw [chatLoopAux]
    rw [if_neg (by rw [List.isEmpty_iff]; exact h ms)]
    rw [ih]
    simp only [Prod.mk.injEq, true_and]
    omega

/-- C1: for every conversation context and every model stub that always
returns tool calls (never final text), the `process_message` loop performs
exactly `1 + tool_call_retry_limit = 3` model rounds and exits with no final
text, and `process_new_message` still sends the single fixed non-empty
fallback reply. -/
theorem orchestrator_round_cap_and_fallback {α : Type}
    (model : List α → ModelResponse α) (execT : List ToolCall → List α)
    (messages0 : List α) (h : ∀ ms, (model ms).tool_calls ≠ []) :
    process_message_loop model execT messages0 = (none, 1 + tool_call_retry_limit) ∧
      process_new_message_reply (process_message_loop model execT messages0).1 =
        fallback_reply ∧
      fallback_reply ≠ "" := by
  have key : process_message_loop model execT messages0 = (none, 3) := by
    rw [process_message_loop, chatLoopAux_all_tool_calls model execT h]
    rfl
  refine ⟨by rw [key]; rfl, by rw [key]; rfl, by decide⟩

/-- A tool call used by the always-tool-calling stub. -/
def stubToolCall : ToolCall :=
  { id := "call_1", name := "find_products", arguments := "\x7b\x7d" }

/-- A model stub that never emits final text: every completion requests one
tool call. -/
def stubModel : List Unit → ModelResponse Unit :=
  fun _ => { dump := (), tool_calls := [stubToolCall], content := none }

/-- A trivial tool executor for the stub run. -/
def stubExec : List ToolCall → List Unit := fun _ => []

/-- C1 witness: the cap-and-fallback theorem run on the concrete
always-tool-calling stub. -/
theorem orchestrator_round_cap_witness :
    process_message_loop stubModel stubExec [] = (none, 1 + tool_call_retry_limit) ∧
      process_new_message_reply (process_message_loop stubModel stubExec []).1 =
        fallback_reply ∧
      fallback_reply ≠ "" :=
  orchestrator_round_cap_and_fallback stubModel stubExec []
    (fun ms => by simp [stubModel])

/-! ### Support lemmas: reservation store and the save-details branch -/

/-- The cumulative state effect of the `saved_keys` comprehension: every
key/value pair stored in order. -/
def storeAll (cid : String) (args : List (String × JVal)) (st : ConvState) : ConvState :=
  args.foldl (fun st2 kv => (store_reservation_detail cid kv.1 kv.2 st2).2) st

theorem store_reservation_detail_fst (cid k : String) (v : JVal) (st : ConvState) :
    (store_reservation_detail cid k v st).1 = none := by
  unfold store_reservation_detail
  split <;> rfl

theorem saveFold_eq (cid : String) :
    ∀ (args : List (String × JVal)) (acc : List String) (st : ConvState),
      args.foldl (saveStep cid) (acc, st) = (acc, storeAll cid args st) := by
  intro args
  induction args with
  | nil => intro acc st; rfl
  | cons kv rest ih =>
    intro acc st
    have hstep : saveStep cid (acc, st) kv =
        (acc, (store_reservation_detail cid kv.1 kv.2 st).2) := by
      show (if (store_reservation_detail cid kv.1 kv.2 (acc, st).2).1.isSome = true
          then (acc, st).1 ++ [kv.1] else (acc, st).1,
        (store_reservation_detail cid kv.1 kv.2 (acc, st).2).2) = _
      rw [store_reservation_detail_fst]
      rfl
    show rest.foldl (saveStep cid) (saveStep cid (acc, st) kv) = _
    rw [hstep, ih]
    rfl

theorem find?_assocUpsert_self (m : List (String × JVal)) (k : String) (v : JVal) :
    ((assocUpsert m k v).find? fun e => e.1 == k) = some (k, v) := by
  by_cases hf : ((m.find? fun e => e.1 == k).isSome) = true
  · unfold assocUpsert
    rw [if_pos hf]
    induction m with
    | nil => simp at hf
    | cons e es ih =>
      rw [List.map_cons]
      by_cases he : (e.1 == k) = true
      · rw [if_pos he]
        simp [List.find?_cons]
      · rw [if_neg he]
        have hef : (e.1 == k) = false := by simpa using he
        simp only [List.find?_cons, hef] at hf ⊢
        exact ih hf
  · unfold assocUpsert
    rw [if_neg hf]
    induction m with
    | nil => simp [List.find?_cons]
    | cons e es ih =>
      by_cases he : (e.1 == k) = true
      · simp only [List.find?_cons, he] at hf
        simp at hf
      · have hef : (e.1 == k) = false := by simpa using he
        rw [List.cons_append]
        simp only [List.find?_cons, hef] at hf ⊢
        exact ih hf

theorem find?_assocUpsert_other (m : List (String × JVal)) (k k2 : String) (v : JVal)
    (hne : k2 ≠ k) :
    ((assocUpsert m k v).find? fun e => e.1 == k2) = m.find? fun e => e.1 == k2 := by
  have hkk2 : (k == k2) = false := by
    rw [beq_eq_false_iff_ne]
    exact fun he => hne he.symm
  by_cases hf : ((m.find? fun e => e.1 == k).isSome) = true
  · unfold assocUpsert
    rw [if_pos hf]
    clear hf
    induction m with
    | nil => rfl
    | cons e es ih =>
      rw [List.map_cons]
      by_cases he : (e.1 == k) = true
      · rw [if_pos he]
        have he1 : e.1 = k := by simpa using he
        simp only [List.find?_cons, he1, hkk2]
        exact ih
      · rw [if_neg he]
        by_cases he2 : (e.1 == k2) = true
        · simp only [List.find?_cons, he2]
        · have hef2 : (e.1 == k2) = false := by simpa using he2
          simp only [List.find?_cons, hef2]
          exact ih
  · unfold assocUpsert
    rw [if_neg hf]
    induction m with
    | nil => simp [List.find?_cons, hkk2]
    | cons e es ih =>
      by_cases he : (e.1 == k) = true
      · simp only [List.find?_cons, he] at hf
        simp at hf
      · have hef : (e.1 == k) = false := by simpa using he
        have hf2 : ¬((es.find? fun e => e.1 == k).isSome = true) := by
          simp only [List.find?_cons, hef] at hf
          exact hf
        rw [List.cons_append]
        by_cases he2 : (e.1 == k2) = true
        · simp only [List.find?_cons, he2]
        · have hef2 : (e.1 == k2) = false := by simpa using he2
          simp only [List.find?_cons, hef2]
          exact ih hf2

theorem get_specific_detail_store_same (cid k : String) (v : JVal) (st : ConvState)
    (hcid : cid ≠ "") (hk : k ≠ "") :
    get_specific_detail cid k (store_reservation_detail cid k v st).2 = some v := by
  unfold store_reservation_detail
  rw [if_neg (by simp [hcid, hk])]
  show (match (if cid = cid then
      some (assocUpsert ((st.reservations cid).getD []) k v)
    else st.reservations cid) with
    | some reservation => Option.map (fun x => x.2) (reservation.find? fun e => e.1 == k)
    | none => none) = some v
  rw [if_pos rfl]
  show Option.map (fun x => x.2)
      ((assocUpsert ((st.reservations cid).getD []) k v).find? fun e => e.1 == k) =
    some v
  rw [find?_assocUpsert_self]
  rfl

theorem get_specific_detail_store_ne (cid k k2 : String) (v : JVal) (st : ConvState)
    (hne : k2 ≠ k) :
    get_specific_detail cid k2 (store_reservation_detail cid k v st).2 =
      get_specific_detail cid k2 st := by
  unfold store_reservation_detail
  split
  · rfl
  · show (match (if cid = cid then
        some (assocUpsert ((st.reservations cid).getD []) k v)
      else st.reservations cid) with
      | some reservation => Option.map (fun x => x.2) (reservation.find? fun e => e.1 == k2)
      | none => none) = get_specific_detail cid k2 st
    rw [if_pos rfl]
    show Option.map (fun x => x.2)
        ((assocUpsert ((st.reservations cid).getD []) k v).find? fun e => e.1 == k2) =
      get_specific_detail cid k2 st
    rw [find?_assocUpsert_other _ _ _ _ hne]
    unfold get_specific_detail get_reservation_details
    cases hres : st.reservations cid with
    | none => rfl
    | some r => rfl

theorem storeAll_preserve (cid k2 : String) :
    ∀ (args : List (String × JVal)) (st : ConvState),
      (∀ kv ∈ args, kv.1 ≠ k2) →
      get_specific_detail cid k2 (storeAll cid args st) =
        get_specific_detail cid k2 st := by
  intro args
  induction args with
  | nil => intro st _; rfl
  | cons kv rest ih =>
    intro st h
    show get_specific_detail cid k2
        (storeAll cid rest (store_reservation_detail cid kv.1 kv.2 st).2) = _
    rw [ih _ (fun a ha => h a (List.mem_cons_of_mem _ ha))]
    exact get_specific_detail_store_ne cid kv.1 k2 kv.2 st
      (fun he => h kv (List.mem_cons_self _ _) he.symm)

theorem storeAll_lookup (cid : String) (hcid : cid ≠ "") :
    ∀ (args : List (String × JVal)) (st : ConvState),
      (∀ kv ∈ args, kv.1 ≠ "") → (args.map Prod.fst).Nodup →
      ∀ kv ∈ args, get_specific_detail cid kv.1 (storeAll cid args st) = some kv.2 := by
  intro args
  induction args with
  | nil => intro st _ _ kv hkv; exact absurd hkv (List.not_mem_nil kv)
  | cons kv0 rest ih =>
    intro st hkeys hnodup kv hkv
    rw [List.map_cons, List.nodup_cons] at hnodup
    rcases List.mem_cons.1 hkv with he | hmem
    · subst he
      show get_specific_detail cid kv.1
          (storeAll cid rest (store_reservation_detail cid kv.1 kv.2 st).2) = some kv.2
      rw [storeAll_preserve cid kv.1 rest _ (fun a ha hae => hnodup.1
        (hae ▸ List.mem_map_of_mem Prod.fst ha))]
      exact get_specific_detail_store_same cid kv.1 kv.2 st hcid
        (hkeys kv (List.mem_cons_self _ _))
    · exact ih _ (fun a ha => hkeys a (List.mem_cons_of_mem _ ha)) hnodup.2 kv hmem

theorem save_branch_eval_city (collab : Collaborators)
    (loads : String → Option (List (String × JVal))) (cid : String)
    (st : ConvState) (tc : ToolCall) (args : List (String × JVal)) (city : String)
    (hname : tc.name = "save_customer_reservation_details")
    (hargs : loads tc.arguments = some args)
    (hc : argGet args "city" = some (JVal.str city)) :
    executeOneToolCall collab loads cid st tc =
      (toolReply tc (savedKeysPayload []),
       set_conversation_city cid city (storeAll cid args st)) := by
  obtain ⟨tcid, tcname, tcargs⟩ := tc
  subst hname
  unfold executeOneToolCall
  simp only [hargs]
  rw [saveFold_eq, hc]
  rfl

theorem save_branch_eval_nocity (collab : Collaborators)
    (loads : String → Option (List (String × JVal))) (cid : String)
    (st : ConvState) (tc : ToolCall) (args : List (String × JVal))
    (hname : tc.name = "save_customer_reservation_details")
    (hargs : loads tc.arguments = some args)
    (hc : argGet args "city" = none) :
    executeOneToolCall collab loads cid st tc =
      (toolReply tc (savedKeysPayload []), storeAll cid args st) := by
  obtain ⟨tcid, tcname, tcargs⟩ := tc
  subst hname
  unfold executeOneToolCall
  simp only [hargs]
  rw [saveFold_eq, hc]
  rfl

/-- A key from `required_details` appears in the missing list only when it is
absent from the reservation dict. -/
theorem missing_key_absent {reservation : List (String × JVal)} {k : String}
    (hreq : k ∈ required_details)
    (h : k ∈ missingFromReservation reservation) :
    ((reservation.find? fun e => e.1 == k).isSome) = false := by
  have hbr : k ≠ KEY_BRANCH_NAME := by
    intro he; rw [he] at hreq; exact absurd hreq (by decide)
  have had : k ≠ KEY_DELIVERY_ADDRESS := by
    intro he; rw [he] at hreq; exact absurd hreq (by decide)
  have hpa : k ≠ KEY_PAYMENT_METHOD := by
    intro he; rw [he] at hreq; exact absurd hreq (by decide)
  simp only [missingFromReservation] at h
  split at h <;> try split at h <;> try split at h <;> try split at h
  all_goals
    first
      | exact absurd h (List.not_mem_nil _)
      | exact absurd (List.mem_singleton.1 h) hpa
      | (have hf := (List.mem_filter.1 h).2
         simpa using hf)
      | (rcases List.mem_append.1 h with h1 | h1
         · first
             | (have hf := (List.mem_filter.1 h1).2
                simpa using hf)
             | (rcases List.mem_append.1 h1 with h2 | h2
                · have hf := (List.mem_filter.1 h2).2
                  simpa using hf
                · exact absurd (List.mem_singleton.1 h2) hbr)
         · first
             | exact absurd (List.mem_singleton.1 h1) hbr
             | exact absurd (List.mem_singleton.1 h1) had)

/-! ### Claim C9: the save-details tool always reports `no_action` -/

/-- C9: every dispatch of `save_customer_reservation_details` with a
(non-empty) schema-typed argument object returns the payload
`{"status": "no_action"}` — never a list of saved keys, because
`store_reservation_detail` returns `None` and the `saved_keys`
comprehension therefore stays empty — while every provided key/value pair is
nonetheless written into the conversation's reservation store. -/
theorem save_details_always_no_action (collab : Collaborators)
    (loads : String → Option (List (String × JVal))) (cid : String)
    (st : ConvState) (tc : ToolCall) (args : List (String × JVal))
    (hname : tc.name = "save_customer_reservation_details")
    (hargs : loads tc.arguments = some args)
    (hne : args ≠ [])
    (hcid : cid ≠ "")
    (hkeys : ∀ kv ∈ args, kv.1 ≠ "")
    (hnodup : (args.map Prod.fst).Nodup)
    (hcity : ∀ v, argGet args "city" = some v → ∃ s, v = JVal.str s) :
    (execute_tool_calls collab loads cid st [tc]).1 =
        [{ tool_call_id := tc.id, role := "tool",
           name := "save_customer_reservation_details",
           content := jvalDumps (JVal.obj [("status", JVal.str "no_action")]) }] ∧
      ∀ kv ∈ args,
        get_specific_detail cid kv.1 (execute_tool_calls collab loads cid st [tc]).2 =
          some kv.2 := by
  have hpair : execute_tool_calls collab loads cid st [tc] =
      ((executeOneToolCall collab loads cid st tc).1 :: [],
       (executeOneToolCall collab loads cid st tc).2) := rfl
  have hout : executeOneToolCall collab loads cid st tc =
        (toolReply tc (savedKeysPayload []), set_conversation_city cid "" (storeAll cid args st)) ∨
      executeOneToolCall collab loads cid st tc =
        (toolReply tc (savedKeysPayload []), storeAll cid args st) ∨
      ∃ city, executeOneToolCall collab loads cid st tc =
        (toolReply tc (savedKeysPayload []),
         set_conversation_city cid city (storeAll cid args st)) := by
    rcases hcg : argGet args "city" with _ | v
    · exact Or.inr (Or.inl (save_branch_eval_nocity collab loads cid st tc args
        hname hargs hcg))
    · obtain ⟨s, hs⟩ := hcity v hcg
      subst hs
      exact Or.inr (Or.inr ⟨s, save_branch_eval_city collab loads cid st tc args s
        hname hargs hcg⟩)
  have hlookup := storeAll_lookup cid hcid args st hkeys hnodup
  rcases hout with he | he | ⟨city, he⟩ <;>
    (constructor
     · rw [hpair, he]
       simp [toolReply, savedKeysPayload, hname]
     · intro kv hkv
       rw [hpair, he]
       exact hlookup kv hkv)

/-- A collaborator bundle whose services are all unavailable (used by
witnesses only; the save branch never consults it). -/
def trivialCollab : Collaborators :=
  { find_products_svc := fun _ _ => .ok none
    get_available_brands_svc := fun _ => .ok none
    get_branch_address_svc := fun _ _ => .ok none
    query_accessories_svc := fun _ _ => .ok none
    get_location_details_from_address_svc := fun _ => .ok none }

/-- The empty conversation state. -/
def emptyConvState : ConvState :=
  { reservations := fun _ => none, cities := fun _ => none, warehouseCityMap := [] }

/-- A concrete save-details tool call. -/
def saveToolCall : ToolCall :=
  { id := "call_save", name := "save_customer_reservation_details",
    arguments := "\x7b\"telefono\": \"04121234567\", \"city\": \"Caracas\"\x7d" }

/-- The decoded arguments of `saveToolCall`. -/
def saveArgs : List (String × JVal) :=
  [(KEY_PHONE, JVal.str "04121234567"), ("city", JVal.str "Caracas")]

/-- An abstract `json.loads` that decodes `saveToolCall`'s arguments. -/
def saveLoads : String → Option (List (String × JVal)) :=
  fun s => if s = saveToolCall.arguments then some saveArgs else none

/-- C9 witness: dispatching the concrete save call yields the `no_action`
payload, yet both provided details are stored. -/
theorem save_details_no_action_witness :
    (execute_tool_calls trivialCollab saveLoads "conv9" emptyConvState [saveToolCall]).1 =
        [{ tool_call_id := "call_save", role := "tool",
           name := "save_customer_reservation_details",
           content := jvalDumps (JVal.obj [("status", JVal.str "no_action")]) }] ∧
      ∀ kv ∈ saveArgs,
        get_specific_detail "conv9" kv.1
            (execute_tool_calls trivialCollab saveLoads "conv9" emptyConvState [saveToolCall]).2 =
          some kv.2 := by
  have h := save_details_always_no_action trivialCollab saveLoads "conv9" emptyConvState
    saveToolCall saveArgs rfl rfl (List.cons_ne_nil _ _) (by decide)
    (by intro kv hkv; fin_cases hkv <;> decide)
    (by decide)
    (by
      intro v hv
      refine ⟨"Caracas", ?_⟩
      have : argGet saveArgs "city" = some (JVal.str "Caracas") := rfl
      rw [this] at hv
      injection hv with hv
      exact hv.symm)
  exact h

/-! ### Claim C8: saving phone and city updates the reservation and the
resolved city -/

/-- After a successful `store_reservation_detail`, the conversation's
reservation dict is the previous one with the key upserted. -/
theorem store_reservation_detail_resv (cid k : String) (v : JVal) (st : ConvState)
    (hcid : cid ≠ "") (hk : k ≠ "") :
    (store_reservation_detail cid k v st).2.reservations cid =
      some (assocUpsert ((st.reservations cid).getD []) k v) := by
  unfold store_reservation_detail
  rw [if_neg (by simp [hcid, hk])]
  show (if cid = cid then some (assocUpsert ((st.reservations cid).getD []) k v)
      else st.reservations cid) = _
  rw [if_pos rfl]

/-- C8: for a conversation with no prior reservation state, after the
`save_customer_reservation_details` tool is dispatched with
`{telefono: "04121234567", city: "Caracas"}`, `get_missing_details` no longer
contains `"telefono"`, and the conversation's resolved city is `"caracas"`. -/
theorem save_phone_city_scenario (collab : Collaborators)
    (loads : String → Option (List (String × JVal))) (cid : String)
    (st : ConvState) (tc : ToolCall)
    (hname : tc.name = "save_customer_reservation_details")
    (hargs : loads tc.arguments = some saveArgs)
    (hcid : cid ≠ "")
    (hres : st.reservations cid = none) :
    KEY_PHONE ∉ get_missing_details cid (execute_tool_calls collab loads cid st [tc]).2 ∧
      get_conversation_city cid (execute_tool_calls collab loads cid st [tc]).2 =
        some "caracas" := by
  have hcg : argGet saveArgs "city" = some (JVal.str "Caracas") := rfl
  have he := save_branch_eval_city collab loads cid st tc saveArgs "Caracas"
    hname hargs hcg
  have hstate : (execute_tool_calls collab loads cid st [tc]).2 =
      set_conversation_city cid "Caracas" (storeAll cid saveArgs st) := by
    show (executeOneToolCall collab loads cid st tc).2 = _
    rw [he]
  have hresv : (set_conversation_city cid "Caracas"
      (storeAll cid saveArgs st)).reservations cid = some saveArgs := by
    show (storeAll cid saveArgs st).reservations cid = some saveArgs
    have h1 : storeAll cid saveArgs st =
        (store_reservation_detail cid "city" (JVal.str "Caracas")
          (store_reservation_detail cid KEY_PHONE (JVal.str "04121234567") st).2).2 := rfl
    rw [h1, store_reservation_detail_resv cid "city" (JVal.str "Caracas") _ hcid (by decide),
        store_reservation_detail_resv cid KEY_PHONE (JVal.str "04121234567") st hcid (by decide),
        hres]
    rfl
  constructor
  · intro hc
    rw [hstate] at hc
    unfold get_missing_details at hc
    rw [hresv] at hc
    have habs := missing_key_absent (by decide) hc
    exact absurd habs (by decide)
  · rw [hstate]
    show (if cid = cid then
        some ((detect_city_from_text "Caracas").getD (pyLower "Caracas"))
      else (storeAll cid saveArgs st).cities cid) = some "caracas"
    rw [if_pos rfl]
    decide

/-- C8 witness: the scenario run concretely from the empty conversation
state. -/
theorem save_phone_city_scenario_witness :
    KEY_PHONE ∉ get_missing_details "conv8"
        (execute_tool_calls trivialCollab saveLoads "conv8" emptyConvState [saveToolCall]).2 ∧
      get_conversation_city "conv8"
          (execute_tool_calls trivialCollab saveLoads "conv8" emptyConvState [saveToolCall]).2 =
        some "caracas" :=
  save_phone_city_scenario trivialCollab saveLoads "conv8" emptyConvState saveToolCall
    rfl rfl (by decide) rfl

/-! ### Claim C3: `_execute_tool_calls` never raises past its boundary -/

/-- The four tool branches that call an external service unconditionally. -/
def alwaysCallingTools : List String :=
  ["get_available_brands", "get_branch_address", "query_accessories",
   "get_location_details_from_address"]

/-- Every collaborator service raises on every input. -/
def CollabAlwaysFails (collab : Collaborators) : Prop :=
  (∀ q s, ∃ e, collab.find_products_svc q s = .error e) ∧
  (∀ c, ∃ e, collab.get_available_brands_svc c = .error e) ∧
  (∀ b c, ∃ e, collab.get_branch_address_svc b c = .error e) ∧
  (∀ i w, ∃ e, collab.query_accessories_svc i w = .error e) ∧
  (∀ a, ∃ e, collab.get_location_details_from_address_svc a = .error e)

/-- What one tool-result entry guarantees about its requested call: the
entry echoes the call id, role `"tool"` and the tool name; an
argument-decode failure yields a status-error payload with a message; a
decodable call to an unrecognized tool yields the fixed unknown-tool
status-error payload; and when every collaborator raises, the four
unconditionally-calling tools still yield a status-error payload. -/
def toolEntryOK (loads : String → Option (List (String × JVal)))
    (collab : Collaborators) (tc : ToolCall) (o : ToolOutput) : Prop :=
  o.tool_call_id = tc.id ∧ o.role = "tool" ∧ o.name = tc.name ∧
  (loads tc.arguments = none →
    ∃ m, o.content = jvalDumps (JVal.obj
      [("status", JVal.str "error"), ("message", JVal.str m)])) ∧
  (loads tc.arguments ≠ none → tc.name ∉ knownToolNames →
    o.content = jvalDumps (JVal.obj
      [("status", JVal.str "error"),
       ("message", JVal.str ("Herramienta desconocida \x27" ++ tc.name ++ "\x27."))])) ∧
  (CollabAlwaysFails collab → tc.name ∈ alwaysCallingTools →
    loads tc.arguments ≠ none →
    ∃ m, o.content = jvalDumps (JVal.obj
      [("status", JVal.str "error"), ("message", JVal.str m)]))

theorem executeOneToolCall_is_reply (collab : Collaborators)
    (loads : String → Option (List (String × JVal))) (cid : String)
    (st : ConvState) (tc : ToolCall) :
    ∃ txt, (executeOneToolCall collab loads cid st tc).1 = toolReply tc txt := by
  unfold executeOneToolCall
  rcases loads tc.arguments with _ | args
  · exact ⟨_, rfl⟩
  · repeat' split
    all_goals exact ⟨_, rfl⟩

theorem executeOneToolCall_unknown (collab : Collaborators)
    (loads : String → Option (List (String × JVal))) (cid : String)
    (st : ConvState) (tc : ToolCall) (args : List (String × JVal))
    (hl : loads tc.arguments = some args) (hunk : tc.name ∉ knownToolNames) :
    (executeOneToolCall collab loads cid st tc).1 =
      toolReply tc
        (errorPayloadJson ("Herramienta desconocida \x27" ++ tc.name ++ "\x27.")) := by
  simp only [knownToolNames, List.mem_cons, List.mem_singleton, not_or,
    List.not_mem_nil, or_false] at hunk
  obtain ⟨h1, h2, h3, h4, h5, h6, h7⟩ := hunk
  unfold executeOneToolCall
  simp only [hl]
  rw [if_neg h1, if_neg h2, if_neg h3, if_neg h4, if_neg h5, if_neg h6, if_neg h7]

theorem executeOneToolCall_fail_calls (collab : Collaborators)
    (loads : String → Option (List (String × JVal))) (cid : String)
    (st : ConvState) (tc : ToolCall) (args : List (String × JVal))
    (hl : loads tc.arguments = some args) (hfail : CollabAlwaysFails collab)
    (hmem : tc.name ∈ alwaysCallingTools) :
    (executeOneToolCall collab loads cid st tc).1 =
      toolReply tc (internalErrorJson tc.name) := by
  obtain ⟨hf, hb, ha, hq, hg⟩ := hfail
  obtain ⟨tid, tname, targs⟩ := tc
  simp only [alwaysCallingTools, List.mem_cons, List.not_mem_nil, or_false] at hmem
  rcases hmem with h | h | h | h <;> subst h <;>
    (unfold executeOneToolCall; simp only [hl])
  · obtain ⟨e, he⟩ := hb (some ((argGet args "category").getD (JVal.str "CELULAR")))
    rw [he]
    rfl
  · obtain ⟨e, he⟩ := ha (argGet args "branchName") (argGet args "city")
    rw [he]
    rfl
  · obtain ⟨e, he⟩ := hq (argGet args "itemCode") (get_city_warehouses cid st)
    rw [he]
    rfl
  · obtain ⟨e, he⟩ := hg (argGet args "address")
    rw [he]
    rfl

theorem executeOneToolCall_entry (collab : Collaborators)
    (loads : String → Option (List (String × JVal))) (cid : String)
    (st : ConvState) (tc : ToolCall) :
    toolEntryOK loads collab tc (executeOneToolCall collab loads cid st tc).1 := by
  obtain ⟨txt, hshape⟩ := executeOneToolCall_is_reply collab loads cid st tc
  refine ⟨by rw [hshape]; rfl, by rw [hshape]; rfl, by rw [hshape]; rfl, ?_, ?_, ?_⟩
  · intro hl
    have hform : (executeOneToolCall collab loads cid st tc).1 =
        toolReply tc (internalErrorJson tc.name) := by
      unfold executeOneToolCall; rw [hl]
    exact ⟨"Error interno al ejecutar " ++ tc.name ++ ".", by rw [hform]; rfl⟩
  · intro hne hunk
    rcases hopt : loads tc.arguments with _ | args
    · exact absurd hopt hne
    · rw [executeOneToolCall_unknown collab loads cid st tc args hopt hunk]
      rfl
  · intro hfail hmem hne
    rcases hopt : loads tc.arguments with _ | args
    · exact absurd hopt hne
    · rw [executeOneToolCall_fail_calls collab loads cid st tc args hopt hfail hmem]
      exact ⟨"Error interno al ejecutar " ++ tc.name ++ ".", rfl⟩

/-- C3: `_execute_tool_calls` never lets a fault escape its boundary: for
every collaborator bundle (including ones whose every service raises), every
argument decoder, every conversation and every requested call list —
including unparseable argument strings and unrecognized tool names — it
returns exactly one tool-result entry per requested call, each echoing the
call id, role `"tool"` and the tool name; a decode failure becomes a
`\x7b"status": "error", "message": …\x7d` payload, an unrecognized tool name
becomes the fixed `Herramienta desconocida` status-error payload, and with
all collaborators raising, the four unconditionally-calling tools still
produce a status-error payload rather than propagating the exception. -/
theorem execute_tool_calls_never_raises (collab : Collaborators)
    (loads : String → Option (List (String × JVal))) (cid : String)
    (st : ConvState) (tcs : List ToolCall) :
    (execute_tool_calls collab loads cid st tcs).1.length = tcs.length ∧
    List.Forall₂ (toolEntryOK loads collab) tcs
      (execute_tool_calls collab loads cid st tcs).1 := by
  induction tcs generalizing st with
  | nil => exact ⟨rfl, .nil⟩
  | cons tc rest ih =>
    have hstep : execute_tool_calls collab loads cid st (tc :: rest) =
        ((executeOneToolCall collab loads cid st tc).1 ::
          (execute_tool_calls collab loads cid
            (executeOneToolCall collab loads cid st tc).2 rest).1,
         (execute_tool_calls collab loads cid
            (executeOneToolCall collab loads cid st tc).2 rest).2) := rfl
    rw [hstep]
    obtain ⟨hlen, hall⟩ := ih (executeOneToolCall collab loads cid st tc).2
    exact ⟨by simp [hlen], .cons (executeOneToolCall_entry collab loads cid st tc) hall⟩

/-- A collaborator bundle every service of which raises. -/
def raisingCollab : Collaborators :=
  { find_products_svc := fun _ _ => .error "boom"
    get_available_brands_svc := fun _ => .error "boom"
    get_branch_address_svc := fun _ _ => .error "boom"
    query_accessories_svc := fun _ _ => .error "boom"
    get_location_details_from_address_svc := fun _ => .error "boom" }

/-- A decoder that parses only the empty JSON object string. -/
def emptyObjLoads : String → Option (List (String × JVal)) :=
  fun s => if s = "\x7b\x7d" then some [] else none

/-- A call whose argument string is not valid JSON. -/
def badJsonCall : ToolCall :=
  { id := "call_bad", name := "find_products", arguments := "not json" }

/-- A call to a tool name the dispatcher does not recognize. -/
def unknownCall : ToolCall :=
  { id := "call_unk", name := "mystery_tool", arguments := "\x7b\x7d" }

/-- C3 witness: the guarantees instantiated on a raising collaborator bundle,
a malformed-JSON call and an unknown-tool call. -/
theorem execute_tool_calls_never_raises_witness :
    (execute_tool_calls raisingCollab emptyObjLoads "conv3" emptyConvState
        [badJsonCall, unknownCall]).1.length = 2 ∧
    List.Forall₂ (toolEntryOK emptyObjLoads raisingCollab) [badJsonCall, unknownCall]
      (execute_tool_calls raisingCollab emptyObjLoads "conv3" emptyConvState
        [badJsonCall, unknownCall]).1 :=
  execute_tool_calls_never_raises raisingCollab emptyObjLoads "conv3" emptyConvState
    [badJsonCall, unknownCall]

/-! ### Claim C6: `_group_product_results` is stable under row permutation -/

/-- Folding further rows into an existing group with `addRow`. -/
def extendAcc (g : GroupAcc) (ps : List Product) : GroupAcc := ps.foldl addRow g

/-- The group a base name maps to in the `products_grouped` output, if any. -/
def findGroup (rows : List Product) (b : String) : Option GroupEntry :=
  (group_product_results rows).find? fun g => g.base_name == b

theorem extendAcc_locations (ps : List Product) : ∀ g : GroupAcc,
    (extendAcc g ps).locations = g.locations ++ ps.map rowLoc := by
  induction ps with
  | nil => intro g; simp [extendAcc]
  | cons p ps ih =>
    intro g
    show (extendAcc (addRow g p) ps).locations = _
    rw [ih (addRow g p)]
    show (g.locations ++ [rowLoc p]) ++ ps.map rowLoc = _
    rw [List.append_assoc]
    rfl

theorem extendAcc_variants (ps : List Product) : ∀ (g : GroupAcc) (v : Variant),
    (v ∈ (extendAcc g ps).variants ↔ v ∈ g.variants ∨ ∃ p ∈ ps, rowVariant p = v) := by
  induction ps with
  | nil =>
    intro g v
    simp [extendAcc]
  | cons p ps ih =>
    intro g v
    show v ∈ (extendAcc (addRow g p) ps).variants ↔ _
    rw [ih (addRow g p) v]
    constructor
    · rintro (hv | ⟨q, hq, he⟩)
      · revert hv
        show v ∈ (if g.variants.contains (rowVariant p) then g.variants
            else g.variants ++ [rowVariant p]) → _
        split
        · intro hv; exact Or.inl hv
        · intro hv
          rcases List.mem_append.1 hv with h | h
          · exact Or.inl h
          · exact Or.inr ⟨p, List.mem_cons_self p ps, (List.mem_singleton.1 h).symm⟩
      · exact Or.inr ⟨q, List.mem_cons_of_mem p hq, he⟩
    · rintro (hv | ⟨q, hq, he⟩)
      · refine Or.inl ?_
        show v ∈ (if g.variants.contains (rowVariant p) then g.variants
            else g.variants ++ [rowVariant p])
        split
        · exact hv
        · exact List.mem_append_left _ hv
      · rcases List.mem_cons.1 hq with h | h
        · subst h
          refine Or.inl ?_
          show v ∈ (if g.variants.contains (rowVariant q) then g.variants
              else g.variants ++ [rowVariant q])
          split
          · next hcont =>
            rw [← he]
            exact List.mem_of_elem_eq_true hcont
          · exact List.mem_append_right _ (by rw [← he]; exact List.mem_singleton_self _)
        · exact Or.inr ⟨q, h, he⟩

theorem find?_congr_all {α : Type} {p q : α → Bool} :
    ∀ {l : List α}, (∀ a ∈ l, p a = q a) → l.find? p = l.find? q := by
  intro l
  induction l with
  | nil => intro _; rfl
  | cons a l ih =>
    intro h
    have ha := h a (List.mem_cons_self a l)
    have ht := ih fun x hx => h x (List.mem_cons_of_mem a hx)
    simp only [List.find?_cons, ha, ht]

theorem find?_map_eq {α β : Type} (f : α → β) (p : β → Bool) :
    ∀ l : List α, (l.map f).find? p = (l.find? fun a => p (f a)).map f := by
  intro l
  induction l with
  | nil => rfl
  | cons a l ih =>
    simp only [List.map_cons, List.find?_cons]
    cases hp : p (f a) <;> simp [hp, ih]

theorem find?_append_case {α : Type} (p : α → Bool) :
    ∀ l₁ l₂ : List α, ((l₁ ++ l₂).find? p) =
      (match l₁.find? p with
       | some a => some a
       | none => l₂.find? p) := by
  intro l₁ l₂
  induction l₁ with
  | nil => rfl
  | cons a l ih =>
    simp only [List.cons_append, List.find?_cons]
    cases hp : p a <;> simp [hp, ih]

theorem find?_updGroup_same (p : Product) (c : String) :
    ∀ acc : List (String × GroupAcc),
      ((acc.map fun e => if e.1 == c then (e.1, addRow e.2 p) else e).find?
          fun e => e.1 == c) =
        (acc.find? fun e => e.1 == c).map fun e => (e.1, addRow e.2 p) := by
  intro acc
  induction acc with
  | nil => rfl
  | cons e acc ih =>
    cases hc : (e.1 == c)
    · rw [List.map_cons, if_neg (by simp [hc])]
      simp only [List.find?_cons, hc]
      exact ih
    · rw [List.map_cons, if_pos hc]
      simp only [List.find?_cons, hc]
      rfl

theorem find?_updGroup_ne (p : Product) (b c : String) (hbc : (c == b) = false) :
    ∀ acc : List (String × GroupAcc),
      ((acc.map fun e => if e.1 == c then (e.1, addRow e.2 p) else e).find?
          fun e => e.1 == b) =
        acc.find? fun e => e.1 == b := by
  intro acc
  induction acc with
  | nil => rfl
  | cons e acc ih =>
    cases hc : (e.1 == c)
    · rw [List.map_cons, if_neg (by simp [hc])]
      cases hb : (e.1 == b)
      · simp only [List.find?_cons, hb]
        exact ih
      · simp only [List.find?_cons, hb]
    · have heb : (e.1 == b) = false := by rw [eq_of_beq hc]; exact hbc
      rw [List.map_cons, if_pos hc]
      simp only [List.find?_cons, heb]
      exact ih

theorem find?_updLoc_same (s : Int) (c : String) :
    ∀ acc : List MergedLoc,
      ((acc.map fun m =>
          if m.branch_name == c then { m with total_stock := m.total_stock + s } else m).find?
          fun m => m.branch_name == c) =
        (acc.find? fun m => m.branch_name == c).map
          fun m => { m with total_stock := m.total_stock + s } := by
  intro acc
  induction acc with
  | nil => rfl
  | cons m acc ih =>
    cases hc : (m.branch_name == c)
    · rw [List.map_cons, if_neg (by simp [hc])]
      simp only [List.find?_cons, hc]
      exact ih
    · rw [List.map_cons, if_pos hc]
      simp only [List.find?_cons, hc]
      rfl

theorem find?_updLoc_ne (s : Int) (b c : String) (hbc : (c == b) = false) :
    ∀ acc : List MergedLoc,
      ((acc.map fun m =>
          if m.branch_name == c then { m with total_stock := m.total_stock + s } else m).find?
          fun m => m.branch_name == b) =
        acc.find? fun m => m.branch_name == b := by
  intro acc
  induction acc with
  | nil => rfl
  | cons m acc ih =>
    cases hc : (m.branch_name == c)
    · rw [List.map_cons, if_neg (by simp [hc])]
      cases hb : (m.branch_name == b)
      · simp only [List.find?_cons, hb]
        exact ih
      · simp only [List.find?_cons, hb]
    · have heb : (m.branch_name == b) = false := by rw [eq_of_beq hc]; exact hbc
      rw [List.map_cons, if_pos hc]
      simp only [List.find?_cons, heb]
      exact ih

theorem groupFold_baseInv : ∀ (rows : List Product) (acc : List (String × GroupAcc)),
    (∀ e ∈ acc, e.2.base_name = e.1) →
    ∀ e ∈ rows.foldl insertRow acc, e.2.base_name = e.1 := by
  intro rows
  induction rows with
  | nil => intro acc h; exact h
  | cons p ps ih =>
    intro acc h
    rw [List.foldl_cons]
    refine ih (insertRow acc p) ?_
    intro e he
    unfold insertRow at he
    split at he
    · rcases List.mem_map.1 he with ⟨e0, he0, hfe⟩
      rw [← hfe]
      split
      · exact h e0 he0
      · exact h e0 he0
    · rcases List.mem_append.1 he with h1 | h1
      · exact h e h1
      · rw [List.mem_singleton.1 h1]
        rfl

theorem groupFold_find (b : String) :
    ∀ (rows : List Product) (acc : List (String × GroupAcc)),
      ((rows.foldl insertRow acc).find? fun e => e.1 == b) =
        match acc.find? fun e => e.1 == b with
        | some e => some (e.1, extendAcc e.2 (rows.filter fun p => rowBase p == b))
        | none =>
          match rows.filter fun p => rowBase p == b with
          | [] => none
          | p :: ps => some (b, extendAcc (addRow (newGroupAcc p) p) ps) := by
  intro rows
  induction rows with
  | nil =>
    intro acc
    rcases h : acc.find? fun e => e.1 == b with _ | e
    · simp [h]
    · simp [h, extendAcc]
  | cons p rest ih =>
    intro acc
    rw [List.foldl_cons, ih (insertRow acc p)]
    cases hpb : (rowBase p == b)
    · have hfilter : (p :: rest).filter (fun q => rowBase q == b) =
          rest.filter fun q => rowBase q == b := by
        simp [List.filter_cons, hpb]
      have hkeep : ((insertRow acc p).find? fun e => e.1 == b) =
          acc.find? fun e => e.1 == b := by
        unfold insertRow
        split
        · exact find?_updGroup_ne p b (rowBase p) hpb acc
        · rw [find?_append_case]
          rcases hacc : acc.find? fun e => e.1 == b with _ | e <;>
            simp [hacc, List.find?_cons, hpb]
      rw [hkeep, hfilter]
    · have hb : rowBase p = b := eq_of_beq hpb
      have hfilter : (p :: rest).filter (fun q => rowBase q == b) =
          p :: rest.filter fun q => rowBase q == b := by
        simp [List.filter_cons, hpb]
      rcases hacc : acc.find? fun e => e.1 == b with _ | e
      · have hins : ((insertRow acc p).find? fun e => e.1 == b) =
            some (rowBase p, addRow (newGroupAcc p) p) := by
          unfold insertRow
          split
          · next hpres =>
            rw [hb, hacc] at hpres
            simp at hpres
          · rw [find?_append_case, hacc]
            simp [List.find?_cons, hpb]
        simp only [hins, hacc, hfilter]
        rw [hb]
      · have hins : ((insertRow acc p).find? fun e => e.1 == b) =
            some (e.1, addRow e.2 p) := by
          unfold insertRow
          rw [hb]
          split
          · rw [find?_updGroup_same p b acc, hacc]
            rfl
          · next hcond =>
            rw [hacc] at hcond
            simp at hcond
        simp only [hins, hacc, hfilter]
        rfl

theorem groupPhase1_baseInv (rows : List Product) :
    ∀ e ∈ groupPhase1 rows, e.2.base_name = e.1 :=
  groupFold_baseInv rows [] (fun e he => absurd he (List.not_mem_nil e))

theorem findGroup_eq (rows : List Product) (b : String) :
    findGroup rows b =
      ((groupPhase1 rows).find? fun e => e.1 == b).map fun e => finalizeGroup e.2 := by
  unfold findGroup group_product_results
  rw [List.find?_map]
  congr 1
  apply find?_congr_all
  intro e he
  show (e.2.base_name == b) = (e.1 == b)
  rw [groupPhase1_baseInv rows e he]

theorem findGroup_char (rows : List Product) (b : String) :
    findGroup rows b =
      match rows.filter fun p => rowBase p == b with
      | [] => none
      | p :: ps => some (finalizeGroup (extendAcc (addRow (newGroupAcc p) p) ps)) := by
  rw [findGroup_eq]
  have h := groupFold_find b rows []
  rw [show groupPhase1 rows = rows.foldl insertRow [] from rfl, h]
  rcases hf : rows.filter (fun p => rowBase p == b) with _ | ⟨p, ps⟩
  · simp [hf]
  · simp [hf]

theorem findGroup_isSome (rows : List Product) (b : String) :
    (findGroup rows b).isSome ↔ ∃ p ∈ rows, rowBase p = b := by
  rw [findGroup_char]
  rcases hf : rows.filter (fun p => rowBase p == b) with _ | ⟨p, ps⟩
  · simp only [hf]
    constructor
    · intro h
      exact absurd h (by simp)
    · rintro ⟨q, hq, hqb⟩
      have hmem : q ∈ rows.filter fun r => rowBase r == b :=
        List.mem_filter.2 ⟨hq, by simp [hqb]⟩
      rw [hf] at hmem
      exact absurd hmem (List.not_mem_nil q)
  · simp only [hf]
    constructor
    · intro _
      have hp : p ∈ rows.filter fun q => rowBase q == b := by
        rw [hf]; exact List.mem_cons_self p ps
      have hm := List.mem_filter.1 hp
      exact ⟨p, hm.1, by simpa using hm.2⟩
    · intro _
      rfl

theorem findGroup_variants (rows : List Product) (b : String) (g : GroupEntry)
    (hg : findGroup rows b = some g) (v : Variant) :
    v ∈ g.variants ↔ ∃ q ∈ rows, rowBase q = b ∧ rowVariant q = v := by
  rw [findGroup_char] at hg
  rcases hf : rows.filter (fun p => rowBase p == b) with _ | ⟨p, ps⟩
  · rw [hf] at hg
    simp at hg
  · rw [hf] at hg
    have hg2 : finalizeGroup (extendAcc (addRow (newGroupAcc p) p) ps) = g :=
      Option.some.inj hg
    subst hg2
    show v ∈ (extendAcc (addRow (newGroupAcc p) p) ps).variants ↔ _
    rw [extendAcc_variants ps (addRow (newGroupAcc p) p) v]
    constructor
    · rintro (hv | ⟨q, hq, he⟩)
      · have hv2 : v = rowVariant p := by
          have hv3 : v ∈ [rowVariant p] := hv
          exact List.mem_singleton.1 hv3
        have hp : p ∈ rows.filter fun q => rowBase q == b := by
          rw [hf]; exact List.mem_cons_self p ps
        have hm := List.mem_filter.1 hp
        exact ⟨p, hm.1, by simpa using hm.2, hv2.symm⟩
      · have hq2 : q ∈ rows.filter fun r => rowBase r == b := by
          rw [hf]; exact List.mem_cons_of_mem p hq
        have hm := List.mem_filter.1 hq2
        exact ⟨q, hm.1, by simpa using hm.2, he⟩
    · rintro ⟨q, hq, hqb, he⟩
      have hq2 : q ∈ rows.filter fun r => rowBase r == b :=
        List.mem_filter.2 ⟨hq, by simp [hqb]⟩
      rw [hf] at hq2
      rcases List.mem_cons.1 hq2 with h | h
      · subst h
        refine Or.inl ?_
        show v ∈ [rowVariant q]
        rw [← he]
        exact List.mem_singleton_self _
      · exact Or.inr ⟨q, h, he⟩

theorem findGroup_locations (rows : List Product) (b : String) (g : GroupEntry)
    (hg : findGroup rows b = some g) :
    g.locations = mergeLocs ((rows.filter fun p => rowBase p == b).map rowLoc) := by
  rw [findGroup_char] at hg
  rcases hf : rows.filter (fun p => rowBase p == b) with _ | ⟨p, ps⟩
  · rw [hf] at hg
    simp at hg
  · rw [hf] at hg
    have hg2 : finalizeGroup (extendAcc (addRow (newGroupAcc p) p) ps) = g :=
      Option.some.inj hg
    subst hg2
    show mergeLocs (extendAcc (addRow (newGroupAcc p) p) ps).locations = _
    rw [extendAcc_locations ps (addRow (newGroupAcc p) p)]
    rfl

theorem mergeFold_branch_ne : ∀ (locs : List RawLoc) (acc : List MergedLoc),
    (∀ m ∈ acc, m.branch_name ≠ "") →
    ∀ m ∈ locs.foldl mergeStep acc, m.branch_name ≠ "" := by
  intro locs
  induction locs with
  | nil => intro acc h; exact h
  | cons l ls ih =>
    intro acc h
    rw [List.foldl_cons]
    refine ih (mergeStep acc l) ?_
    intro m hm
    rcases hln : l.branch_name with _ | c
    · unfold mergeStep at hm
      rw [hln] at hm
      exact h m hm
    · unfold mergeStep at hm
      simp only [hln] at hm
      by_cases hc0 : c = ""
      · rw [if_pos hc0] at hm
        exact h m hm
      · rw [if_neg hc0] at hm
        split at hm
        · rcases List.mem_map.1 hm with ⟨m0, hm0, hfe⟩
          rw [← hfe]
          split
          · exact h m0 hm0
          · exact h m0 hm0
        · rcases List.mem_append.1 hm with h1 | h1
          · exact h m h1
          · rw [List.mem_singleton.1 h1]
            exact hc0

theorem mergeFold_lookup (br : String) (hbr : br ≠ "") :
    ∀ (locs : List RawLoc) (acc : List MergedLoc),
      (((locs.foldl mergeStep acc).find? fun m => m.branch_name == br).map
          fun m => m.total_stock) =
        match acc.find? fun m => m.branch_name == br with
        | some m => some (m.total_stock +
            ((locs.filter fun l => l.branch_name == some br).map fun l => l.stock).sum)
        | none =>
          match locs.filter fun l => l.branch_name == some br with
          | [] => none
          | l :: ls => some (((l :: ls).map fun l2 => l2.stock).sum) := by
  intro locs
  induction locs with
  | nil =>
    intro acc
    rcases h : acc.find? fun m => m.branch_name == br with _ | m <;> simp [h]
  | cons l ls ih =>
    intro acc
    rw [List.foldl_cons, ih (mergeStep acc l)]
    rcases hln : l.branch_name with _ | c
    · have hstep : mergeStep acc l = acc := by
        unfold mergeStep
        rw [hln]
      have hfilter : (l :: ls).filter (fun x => x.branch_name == some br) =
          ls.filter fun x => x.branch_name == some br := by
        simp [List.filter_cons, hln]
      rw [hstep, hfilter]
    · by_cases hc0 : c = ""
      · have hstep : mergeStep acc l = acc := by
          unfold mergeStep
          simp only [hln]
          rw [if_pos hc0]
        have hpred : ((some c : Option String) == some br) = false := by
          cases hx : ((some c : Option String) == some br)
          · rfl
          · have h2 : c = br := Option.some.inj (eq_of_beq hx)
            exact absurd (h2.symm.trans hc0) hbr
        have hfilter : (l :: ls).filter (fun x => x.branch_name == some br) =
            ls.filter fun x => x.branch_name == some br := by
          simp [List.filter_cons, hln, hpred]
        rw [hstep, hfilter]
      · cases hcb : (c == br)
        · have hpred : ((some c : Option String) == some br) = false := by
            cases hx : ((some c : Option String) == some br)
            · rfl
            · have h2 : c = br := Option.some.inj (eq_of_beq hx)
              rw [h2] at hcb
              simp at hcb
          have hfilter : (l :: ls).filter (fun x => x.branch_name == some br) =
              ls.filter fun x => x.branch_name == some br := by
            simp [List.filter_cons, hln, hpred]
          have hkeep : ((mergeStep acc l).find? fun m => m.branch_name == br) =
              acc.find? fun m => m.branch_name == br := by
            unfold mergeStep
            simp only [hln]
            rw [if_neg hc0]
            split
            · exact find?_updLoc_ne l.stock br c hcb acc
            · rw [find?_append_case]
              rcases hacc : acc.find? fun m => m.branch_name == br with _ | m <;>
                simp [hacc, List.find?_cons, hcb]
          rw [hkeep, hfilter]
        · have hcb2 : c = br := eq_of_beq hcb
          have hpred : ((some c : Option String) == some br) = true := by
            rw [hcb2]
            exact beq_self_eq_true _
          have hfilter : (l :: ls).filter (fun x => x.branch_name == some br) =
              l :: ls.filter fun x => x.branch_name == some br := by
            simp [List.filter_cons, hln, hpred]
          rcases hacc : acc.find? fun m => m.branch_name == br with _ | m
          · have hins : ((mergeStep acc l).find? fun m => m.branch_name == br) =
                some { branch_name := c, total_stock := l.stock } := by
              unfold mergeStep
              simp only [hln]
              rw [if_neg hc0]
              split
              · next hpres =>
                rw [hcb2, hacc] at hpres
                simp at hpres
              · rw [find?_append_case, hacc]
                simp [List.find?_cons, hcb]
            simp only [hins, hacc, hfilter]
            simp [List.sum_cons]
          · have hins : ((mergeStep acc l).find? fun m => m.branch_name == br) =
                some { m with total_stock := m.total_stock + l.stock } := by
              unfold mergeStep
              simp only [hln]
              rw [if_neg hc0, hcb2]
              split
              · rw [find?_updLoc_same l.stock br acc, hacc]
                rfl
              · next hcond =>
                rw [hacc] at hcond
                simp at hcond
            simp only [hins, hacc, hfilter]
            simp [List.sum_cons, Int.add_assoc]

theorem mergeLocs_lookup (locs : List RawLoc) (br : String) (hbr : br ≠ "") :
    (((mergeLocs locs).find? fun m => m.branch_name == br).map fun m => m.total_stock) =
      match locs.filter fun l => l.branch_name == some br with
      | [] => none
      | l :: ls => some (((l :: ls).map fun l2 => l2.stock).sum) :=
  mergeFold_lookup br hbr locs []

theorem branchSum_perm {ls₁ ls₂ : List RawLoc} (h : ls₁.Perm ls₂) (br : String) :
    (match ls₁.filter fun l => l.branch_name == some br with
     | [] => (none : Option Int)
     | l :: ls => some (((l :: ls).map fun l2 : RawLoc => l2.stock).sum)) =
    (match ls₂.filter fun l => l.branch_name == some br with
     | [] => (none : Option Int)
     | l :: ls => some (((l :: ls).map fun l2 : RawLoc => l2.stock).sum)) := by
  have hf : (ls₁.filter fun l => l.branch_name == some br).Perm
      (ls₂.filter fun l => l.branch_name == some br) := h.filter _
  rcases h1 : ls₁.filter fun l => l.branch_name == some br with _ | ⟨a, as⟩ <;>
    rcases h2 : ls₂.filter fun l => l.branch_name == some br with _ | ⟨a2, as2⟩
  · rw [h1, h2]
  · rw [h1, h2] at hf
    exact absurd hf.symm (by simp)
  · rw [h1, h2] at hf
    exact absurd hf (by simp)
  · rw [h1, h2] at hf
    have hs : ((a :: as).map fun l2 : RawLoc => l2.stock).Perm
        ((a2 :: as2).map fun l2 : RawLoc => l2.stock) :=
      hf.map _
    simp only [h1, h2]
    rw [hs.sum_eq]

/-- C6: `_group_product_results` is stable under permutation of its input
rows: for two row lists that are permutations of each other, exactly the
same base names carry a group, two groups with the same base name hold the
same set of variant dictionaries, and for every branch name the merged
locations of the two groups report the same per-branch total stock (in
particular the same set of merged branches). -/
theorem group_results_perm_stable (rows₁ rows₂ : List Product)
    (hperm : rows₁.Perm rows₂) (b : String) :
    ((findGroup rows₁ b).isSome ↔ (findGroup rows₂ b).isSome) ∧
    ∀ g₁ g₂, findGroup rows₁ b = some g₁ → findGroup rows₂ b = some g₂ →
      (∀ v, v ∈ g₁.variants ↔ v ∈ g₂.variants) ∧
      ∀ br, ((g₁.locations.find? fun m => m.branch_name == br).map
          fun m => m.total_stock) =
        ((g₂.locations.find? fun m => m.branch_name == br).map
          fun m => m.total_stock) := by
  constructor
  · rw [findGroup_isSome, findGroup_isSome]
    constructor
    · rintro ⟨p, hp, hb⟩
      exact ⟨p, hperm.mem_iff.1 hp, hb⟩
    · rintro ⟨p, hp, hb⟩
      exact ⟨p, hperm.mem_iff.2 hp, hb⟩
  · intro g₁ g₂ h1 h2
    constructor
    · intro v
      rw [findGroup_variants rows₁ b g₁ h1 v, findGroup_variants rows₂ b g₂ h2 v]
      constructor
      · rintro ⟨q, hq, hqb, he⟩
        exact ⟨q, hperm.mem_iff.1 hq, hqb, he⟩
      · rintro ⟨q, hq, hqb, he⟩
        exact ⟨q, hperm.mem_iff.2 hq, hqb, he⟩
    · intro br
      rw [findGroup_locations rows₁ b g₁ h1, findGroup_locations rows₂ b g₂ h2]
      by_cases hbr : br = ""
      · have hn1 : ((mergeLocs ((rows₁.filter fun p => rowBase p == b).map rowLoc)).find?
            fun m => m.branch_name == br) = none := by
          apply List.find?_eq_none.2
          intro m hm hx
          exact mergeFold_branch_ne _ [] (fun x hx2 => absurd hx2 (List.not_mem_nil x)) m hm
            (by rw [eq_of_beq hx, hbr])
        have hn2 : ((mergeLocs ((rows₂.filter fun p => rowBase p == b).map rowLoc)).find?
            fun m => m.branch_name == br) = none := by
          apply List.find?_eq_none.2
          intro m hm hx
          exact mergeFold_branch_ne _ [] (fun x hx2 => absurd hx2 (List.not_mem_nil x)) m hm
            (by rw [eq_of_beq hx, hbr])
        rw [hn1, hn2]
      · rw [mergeLocs_lookup _ br hbr, mergeLocs_lookup _ br hbr]
        exact branchSum_perm ((hperm.filter _).map _) br

/-- A second sample row: same base name as `sampleProduct`, another color and
branch. -/
def sampleProduct2 : Product :=
  { sampleProduct with
    item_code := "D0002"
    item_name := "CELULAR SAMSUNG A15 128GB NEGRO"
    warehouse_name := "ALMACEN SABANA GRANDE"
    branch_name := some "SABANA GRANDE"
    stock := 2 }

/-- C6 witness: the invariance instantiated on a concrete two-row list and
its swap. -/
theorem group_results_perm_witness :
    ([sampleProduct, sampleProduct2].Perm [sampleProduct2, sampleProduct]) ∧
    (((findGroup [sampleProduct, sampleProduct2] "CELULAR SAMSUNG A15 128GB").isSome ↔
        (findGroup [sampleProduct2, sampleProduct] "CELULAR SAMSUNG A15 128GB").isSome) ∧
      ∀ g₁ g₂, findGroup [sampleProduct, sampleProduct2] "CELULAR SAMSUNG A15 128GB" = some g₁ →
        findGroup [sampleProduct2, sampleProduct] "CELULAR SAMSUNG A15 128GB" = some g₂ →
        (∀ v, v ∈ g₁.variants ↔ v ∈ g₂.variants) ∧
        ∀ br, ((g₁.locations.find? fun m => m.branch_name == br).map
            fun m => m.total_stock) =
          ((g₂.locations.find? fun m => m.branch_name == br).map
            fun m => m.total_stock)) :=
  ⟨List.Perm.swap sampleProduct2 sampleProduct [],
   group_results_perm_stable [sampleProduct, sampleProduct2]
     [sampleProduct2, sampleProduct]
     (List.Perm.swap sampleProduct2 sampleProduct [])
     "CELULAR SAMSUNG A15 128GB"⟩

end NamDamasco
